import Mathlib

/-!
Verification of the schema-driven synthetic event generator in
`scripts/generate_aws_events.py`.

The generator consumes a parsed JSON schema document (an in-memory tree of
mappings), and produces one concrete randomized event.  We embed the parsed
JSON trees as the inductive type `JValue`, randomness and the clock as an
oracle structure `Rng` (streams of draws with a position counter), and the
three mutually recursive generation functions
(`generate_value_for_property`, `generate_object_from_schema` and the
per-property loop of the latter) as a single fuel-indexed interpreter `gen`
over a request type, so that the unbounded recursion through the component
table (which the Python source performs on the call stack) is modelled by
the fuel; `none` means the fuel ran out, i.e. the Python call would still
be recursing at that stack depth.

Python-specific primitives (`str.replace`, `dict.get`, truthiness, `in`,
`str.split`) are embedded by small executable functions whose doc comments
record the exact Python behaviour they mirror.  Where Python would raise a
`TypeError`/`AttributeError` on an ill-typed document (e.g. calling `.get`
on a non-dict), the embedded helper returns a default; all theorems about
whole-document behaviour therefore carry a well-formedness hypothesis
`jwf doc = true` restricting attention to documents on which the Python
code performs no such ill-typed operation.
-/

namespace AwsGen

/-- Parsed JSON values: the in-memory trees produced by `json.load` and
consumed/produced by the generator.  Python dicts are association lists in
insertion order with distinct keys (distinctness is part of `jwf`). -/
inductive JValue : Type where
  | str (s : String)
  | num (n : Int)
  | bool (b : Bool)
  | arr (xs : List JValue)
  | obj (kvs : List (String × JValue))

/-! ## Python string primitives -/

/-- Characters of a string, lowercased; embeds Python `str.lower()` for the
ASCII names the generator inspects. -/
def strLower (s : String) : String := String.mk (s.data.map Char.toLower)

/-- Bool test that `pat` occurs as a contiguous substring, scanning left to
right; embeds Python `pat in s`. -/
def infixAux (pat : List Char) : List Char → Bool
  | [] => decide (pat = [])
  | c :: rest => pat.isPrefixOf (c :: rest) || infixAux pat rest

/-- Embeds Python `pat in s` (substring containment). -/
def strContains (s pat : String) : Bool := infixAux pat.data s.data

/-- Embeds Python `s.startswith(pre)`. -/
def strStarts (s pre : String) : Bool := pre.data.isPrefixOf s.data

/-- Embeds Python `s.endswith(suf)`. -/
def strEnds (s suf : String) : Bool := suf.data.isSuffixOf s.data

/-- One step of Python `str.replace(old, new)`: scan left to right, replace
each non-overlapping occurrence.  The fuel is the length of the scanned
list (each step consumes at least one character), so `replaceAux` with fuel
`s.length` is exactly Python's behaviour for a non-empty pattern. -/
def replaceAux (pat rep : List Char) : Nat → List Char → List Char
  | _, [] => []
  | 0, s => s
  | n+1, c :: rest =>
    if pat ≠ [] ∧ pat.isPrefixOf (c :: rest) then
      rep ++ replaceAux pat rep n ((c :: rest).drop pat.length)
    else
      c :: replaceAux pat rep n rest

/-- Embeds Python `s.replace(pat, rep)` for a non-empty `pat` (the source
only ever replaces the non-empty patterns `"aws."` and `"+00:00"`). -/
def pyReplace (s pat rep : String) : String :=
  String.mk (replaceAux pat.data rep.data s.data.length s.data)

/-- Characters before the first occurrence of `pat`; embeds Python
`s.split(pat)[0]` when `pat` occurs in `s` (the source guards the only use
with `'Arn' in property_name`). -/
def beforeFirst (pat : List Char) : List Char → List Char
  | [] => []
  | c :: rest =>
    if pat.isPrefixOf (c :: rest) then [] else c :: beforeFirst pat rest

/-- Embeds Python `s.split('Arn')[0]`. -/
def headBeforeArn (s : String) : String := String.mk (beforeFirst "Arn".data s.data)

/-- Characters after the last `'/'`; embeds Python `s.split('/')[-1]`. -/
def lastSegAux : List Char → List Char → List Char
  | acc, [] => acc.reverse
  | acc, c :: rest => if c = '/' then lastSegAux [] rest else lastSegAux (c :: acc) rest

/-- Embeds Python `ref_path.split('/')[-1]`. -/
def lastSeg (s : String) : String := String.mk (lastSegAux [] s.data)

/-! ## Python mapping primitives on `JValue` -/

/-- Embeds Python `d[k]`/`d.get(k)` on a dict; on a non-dict Python raises
`AttributeError` — here it returns `none`, and theorems about documents
restrict to `jwf` documents where the receiver is always a dict. -/
def jget (v : JValue) (k : String) : Option JValue :=
  match v with
  | .obj kvs => List.lookup k kvs
  | _ => none

/-- Embeds Python `d.get(k, default)` (same caveat as `jget`). -/
def jgetD (v : JValue) (k : String) (d : JValue) : JValue := (jget v k).getD d

/-- Embeds Python `k in d` for a dict receiver (same caveat as `jget`). -/
def pyHasKey (v : JValue) (k : String) : Bool := (jget v k).isSome

/-- Embeds Python truthiness of a JSON value: empty strings, zero, `False`,
and empty containers are falsy. -/
def jtruthy : JValue → Bool
  | .str s => decide (s ≠ "")
  | .num n => decide (n ≠ 0)
  | .bool b => b
  | .arr xs => !xs.isEmpty
  | .obj kvs => !kvs.isEmpty

/-- Embeds Python `name in required` where `required` came from a schema:
membership in a JSON list compares string equality (`in` on a string is
substring containment; other receivers raise `TypeError` in Python and are
excluded by `jwf`, which forces `required` to be a list of strings). -/
def pyIn (name : String) : JValue → Bool
  | .arr xs => xs.any fun x => match x with | .str s => decide (s = name) | _ => false
  | .str s => strContains s name
  | _ => false

/-- The string payload of a JSON string; Python would raise on the string
operations the source applies to a non-string here, and `jwf` excludes
those documents. -/
def asStr : JValue → String
  | .str s => s
  | _ => ""

/-- Entries of a JSON object, in insertion order (Python `d.items()`). -/
def jEntries : JValue → List (String × JValue)
  | .obj kvs => kvs
  | _ => []

/-- Embeds Python `v == s` for a string literal `s`: true exactly when `v`
is that string (equality between a non-string JSON value and a string is
`False` in Python, never an error). -/
def jeqStr (v : JValue) (s : String) : Bool :=
  match v with
  | .str t => decide (t = s)
  | _ => false

/-- Embeds Python `if not x` on an optional string argument (`None` and the
empty string are falsy). -/
def pyFalsyOptStr : Option String → Bool
  | none => true
  | some s => decide (s = "")

/-! ## Clock values and ISO-8601 rendering

`datetime.now(timezone.utc)` is an oracle read; its result is a
`DateTime` record.  `isoformatUTC` embeds `datetime.isoformat()` for an
aware UTC datetime: `YYYY-MM-DDTHH:MM:SS[.ffffff]+00:00`, the fractional
part omitted exactly when the microsecond field is zero. -/

structure DateTime : Type where
  year : Nat
  month : Nat
  day : Nat
  hour : Nat
  minute : Nat
  second : Nat
  micro : Nat

/-- Field ranges of a real `datetime` value (we only need the bounds that
make each `%0kd`-rendering exactly `k` digits wide). -/
def DateTime.Valid (t : DateTime) : Prop :=
  t.year ≤ 9999 ∧ t.month ≤ 99 ∧ t.day ≤ 99 ∧ t.hour ≤ 99 ∧
    t.minute ≤ 99 ∧ t.second ≤ 99 ∧ t.micro ≤ 999999

instance (t : DateTime) : Decidable t.Valid := by
  unfold DateTime.Valid; infer_instance

/-- Decimal digits of `n`, most significant first, accumulated onto `acc`;
the fuel bounds the number of divisions and `fuel = n` always suffices. -/
def natDigitsAux : Nat → Nat → List Char → List Char
  | 0, n, acc => Nat.digitChar (n % 10) :: acc
  | f+1, n, acc =>
    if n < 10 then Nat.digitChar n :: acc
    else natDigitsAux f (n / 10) (Nat.digitChar (n % 10) :: acc)

/-- Decimal rendering of a natural number (Python `str(n)` / `%d`). -/
def natToDigits (n : Nat) : List Char := natDigitsAux n n []

/-- Left-pad with `'0'` to width `w` (Python `%0wd`). -/
def padLeft (w : Nat) (ds : List Char) : List Char :=
  List.replicate (w - ds.length) '0' ++ ds

def pad2 (n : Nat) : List Char := padLeft 2 (natToDigits n)

def pad4 (n : Nat) : List Char := padLeft 4 (natToDigits n)

def pad6 (n : Nat) : List Char := padLeft 6 (natToDigits n)

/-- The offset-free part of `datetime.isoformat()`:
`YYYY-MM-DDTHH:MM:SS[.ffffff]` (nested to the right, field by field). -/
def isoBase (t : DateTime) : List Char :=
  pad4 t.year ++ ('-' :: (pad2 t.month ++ ('-' :: (pad2 t.day ++
    ('T' :: (pad2 t.hour ++ (':' :: (pad2 t.minute ++ (':' :: (pad2 t.second ++
    (if t.micro = 0 then [] else '.' :: pad6 t.micro)))))))))))

/-- The characters of `datetime.isoformat()` for an aware UTC value. -/
def isoChars (t : DateTime) : List Char :=
  isoBase t ++ ('+' :: '0' :: '0' :: ':' :: '0' :: '0' :: [])

/-- Embeds `datetime.now(timezone.utc).isoformat()`. -/
def isoformatUTC (t : DateTime) : String := String.mk (isoChars t)

/-! ## Format checkers

Executable recognizers for the literal formats the specification names:
ISO-8601 timestamps with a `Z` suffix or a `+00:00` offset, UUIDs,
12-digit account ids and ARN prefixes. -/

/-- Consume exactly `k` decimal digits. -/
def expectDigits : Nat → List Char → Option (List Char)
  | 0, cs => some cs
  | _+1, [] => none
  | k+1, c :: cs => if c.isDigit then expectDigits k cs else none

/-- Consume one expected character. -/
def expectChar (c : Char) : List Char → Option (List Char)
  | [] => none
  | c' :: cs => if c' = c then some cs else none

/-- Consume the `YYYY-MM-DDTHH:MM:SS` core of an ISO-8601 timestamp. -/
def isoCore (cs : List Char) : Option (List Char) :=
  (((((((((expectDigits 4 cs).bind (expectChar '-')).bind
    (expectDigits 2)).bind (expectChar '-')).bind
    (expectDigits 2)).bind (expectChar 'T')).bind
    (expectDigits 2)).bind (expectChar ':')).bind
    (expectDigits 2)).bind (expectChar ':') |>.bind (expectDigits 2)

/-- Matches `YYYY-MM-DDTHH:MM:SS(.ffffff)?Z`. -/
def isIsoZ (s : String) : Bool :=
  match isoCore s.data with
  | some ['Z'] => true
  | some ('.' :: rest) =>
    match expectDigits 6 rest with
    | some ['Z'] => true
    | _ => false
  | _ => false

/-- Matches `YYYY-MM-DDTHH:MM:SS(.ffffff)?+00:00`, the ISO-8601 form the
fallback detail timestamp uses. -/
def isIsoOffset (s : String) : Bool :=
  match isoCore s.data with
  | some ('+' :: '0' :: '0' :: ':' :: '0' :: '0' :: []) => true
  | some ('.' :: rest) =>
    match expectDigits 6 rest with
    | some ('+' :: '0' :: '0' :: ':' :: '0' :: '0' :: []) => true
    | _ => false
  | _ => false

/-- Lowercase hexadecimal digit test. -/
def isHexChar (c : Char) : Bool := c.isDigit || ('a' ≤ c && c ≤ 'f')

/-- Consume exactly `k` lowercase hex digits. -/
def expectHexs : Nat → List Char → Option (List Char)
  | 0, cs => some cs
  | _+1, [] => none
  | k+1, c :: cs => if isHexChar c then expectHexs k cs else none

/-- Matches the canonical 8-4-4-4-12 lowercase hex rendering of a UUID,
i.e. a string `str(uuid.uuid4())` parses back as a UUID. -/
def isUuidFormat (s : String) : Bool :=
  match (((((((expectHexs 8 s.data).bind (expectChar '-')).bind
      (expectHexs 4)).bind (expectChar '-')).bind
      (expectHexs 4)).bind (expectChar '-')).bind
      (expectHexs 4)).bind (expectChar '-') |>.bind (expectHexs 12) with
  | some [] => true
  | _ => false

/-- A synthetic AWS account id: exactly 12 ASCII digits. -/
def isAccountId (s : String) : Bool :=
  decide (s.length = 12) && s.data.all Char.isDigit

/-! ## The randomness and clock oracle

The source draws from the process-wide `random` generator, from
`uuid.uuid4()`, from several `faker` generators and from the system clock.
We model one invocation's environment as streams indexed by a draw
counter: each primitive draw consumes one position.  The streams are
unconstrained except where a theorem needs the clock fields in range
(`Rng.Valid`); the `faker` word-like streams are arbitrary strings, which
is all the claims depend on. -/

structure Rng : Type where
  nats : Nat → Nat
  rats : Nat → Rat
  words : Nat → String
  ipv4s : Nat → String
  md5s : Nat → String
  fileNames : Nat → String
  times : Nat → DateTime
  pos : Nat

/-- Draw a raw natural number (`random`'s underlying entropy; used through
`% k` for `random.choice` on a `k`-element sequence and for
`random.randint`). -/
def Rng.nextNat (r : Rng) : Nat × Rng := (r.nats r.pos, { r with pos := r.pos + 1 })

/-- Draw the value of one `random.random()` call, a rational in `[0, 1)`. -/
def Rng.nextRat (r : Rng) : Rat × Rng := (r.rats r.pos, { r with pos := r.pos + 1 })

/-- Draw one `fake.word()`. -/
def Rng.nextWord (r : Rng) : String × Rng := (r.words r.pos, { r with pos := r.pos + 1 })

/-- Draw one `fake.ipv4()`. -/
def Rng.nextIpv4 (r : Rng) : String × Rng := (r.ipv4s r.pos, { r with pos := r.pos + 1 })

/-- Draw one `fake.md5()`. -/
def Rng.nextMd5 (r : Rng) : String × Rng := (r.md5s r.pos, { r with pos := r.pos + 1 })

/-- Draw one `fake.file_name()`. -/
def Rng.nextFileName (r : Rng) : String × Rng :=
  (r.fileNames r.pos, { r with pos := r.pos + 1 })

/-- Read the clock (`datetime.now(timezone.utc)`). -/
def Rng.nextTime (r : Rng) : DateTime × Rng := (r.times r.pos, { r with pos := r.pos + 1 })

/-- The clock stream yields real datetime values (field bounds). -/
def Rng.Valid (r : Rng) : Prop := ∀ i, (r.times i).Valid

/-- Embeds the comparison `random.random() > 0.2` by cross-multiplying
against `1/5` (a rational `q` with positive denominator satisfies
`q > 1/5` iff `den < 5 * num`); stated this way so that the comparison
evaluates by kernel reduction on concrete draws. -/
def gtPointTwo (q : Rat) : Bool := decide ((q.den : Int) < 5 * q.num)

/-- `k` lowercase hex digits of `n`, least significant first; building
block for the hex renderings of `uuid.uuid4()`. -/
def hexDigits (k n : Nat) : List Char :=
  (List.range k).map fun i => Nat.digitChar (n / 16 ^ i % 16)

/-- Embeds `str(uuid.uuid4())` as a function of one raw draw: 30 random
hex digits arranged 8-4-4-4-12 with the version nibble `4` and a variant
nibble in `8..b`, exactly the shape version-4 UUID strings have. -/
def uuid4String (n : Nat) : String :=
  String.mk
    (hexDigits 8 n ++ '-' :: hexDigits 4 (n / 16 ^ 8) ++
      '-' :: '4' :: hexDigits 3 (n / 16 ^ 12) ++
      '-' :: Nat.digitChar (8 + n / 16 ^ 15 % 4) :: hexDigits 3 (n / 16 ^ 16) ++
      '-' :: hexDigits 12 (n / 16 ^ 19))

/-- Embeds `uuid.uuid4().hex[:8]` as a function of one raw draw. -/
def uuidHex8 (n : Nat) : String := String.mk (hexDigits 8 n)

/-- The digit alphabet of `random.choice('0123456789')`. -/
def digitAlphabet : List Char := ['0', '1', '2', '3', '4', '5', '6', '7', '8', '9']

/-- `count` independent `random.choice('0123456789')` draws, in draw
order. -/
def accountDigits : Nat → Rng → List Char × Rng
  | 0, r => ([], r)
  | k+1, r =>
    let (n, r) := r.nextNat
    let (cs, r) := accountDigits k r
    (digitAlphabet.getD (n % 10) '0' :: cs, r)

/-- Default region of the script. -/
def DEFAULT_REGION : String := "eu-west-2"

/-- Embeds `generate_aws_account_id`:
`''.join(random.choice('0123456789') for _ in range(12))`. -/
def generate_aws_account_id (r : Rng) : String × Rng :=
  let (cs, r) := accountDigits 12 r
  (String.mk cs, r)

/-- Embeds `generate_arn(service, resource_type, region, account_id,
resource_id)` with its three defaulted arguments (`if not x` Python
falsiness on each). -/
def generate_arn (service resource_type : String)
    (region account_id resource_id : Option String) (r : Rng) : String × Rng :=
  let (account_id, r) :=
    if pyFalsyOptStr account_id then generate_aws_account_id r
    else (account_id.getD "", r)
  let region := if pyFalsyOptStr region then DEFAULT_REGION else region.getD ""
  let (resource_id, r) :=
    if pyFalsyOptStr resource_id then
      let (w, r) := r.nextWord
      let (n, r) := r.nextNat
      (w ++ "-" ++ uuidHex8 n, r)
    else (resource_id.getD "", r)
  if service = "s3" then
    ("arn:aws:s3:::" ++ resource_id, r)
  else
    ("arn:aws:" ++ service ++ ":" ++ region ++ ":" ++ account_id ++ ":" ++
      resource_type ++ "/" ++ resource_id, r)

/-- Embeds the dict comprehension
`{fake.word(): fake.word() for _ in range(count)}` (evaluation order:
key draw, then value draw, per iteration).  Python dict semantics would
collapse a repeated key; the claims never depend on the key draws
colliding, and the association-list `JValue.obj` resolves a repeat the
same way (first binding wins on lookup). -/
def randWordPairs : Nat → Rng → List (String × JValue) × Rng
  | 0, r => ([], r)
  | k+1, r =>
    let (kw, r) := r.nextWord
    let (vw, r) := r.nextWord
    let (rest, r) := randWordPairs k r
    ((kw, .str vw) :: rest, r)

/-! ## The generation interpreter

`generate_value_for_property` and `generate_object_from_schema` are
mutually recursive, and the recursion through `$ref` into the component
table is unbounded (the source has no cycle guard).  We embed both as one
fuel-indexed interpreter over a request type; every recursive Python call
is one `gen` call at `fuel` from a `fuel + 1` frame, so `none` means the
Python call stack would still be growing past that depth.  The component
table (the Python module-global `schema_components`, set once per
generation call and read-only during it) is passed explicitly. -/

inductive GReq : Type where
  /-- A `generate_value_for_property(name, schema)` call. -/
  | val (name : String) (schema : JValue)
  /-- A `generate_object_from_schema(schema)` call. -/
  | objOf (schema : JValue)
  /-- The property loop of `generate_object_from_schema`, over the not yet
  visited entries of `schema['properties']`, with `schema['required']`. -/
  | props (props : List (String × JValue)) (required : JValue)
  /-- The body of one included iteration of that loop: produce the value for
  `prop_name`, then continue with the remaining properties. -/
  | prop1 (prop_name : String) (prop_schema : JValue)
      (rest : List (String × JValue)) (required : JValue)
  /-- The array comprehension of the `'array'` branch: `count` remaining
  elements of `[generate_value_for_property(name + '_item', items) ...]`. -/
  | arrOf (count : Nat) (name : String) (items : JValue)

/-- The fuel-indexed generation interpreter; see the section comment.
Branch order and draw order follow the source lines 53-123 exactly. -/
def gen : Nat → JValue → GReq → Rng → Option (JValue × Rng)
  | 0, _, _, _ => none
  | fuel+1, comps, req, r =>
    match req with
    | .val name schema =>
      -- generate_value_for_property(property_name, property_schema)
      let property_type := jgetD schema "type" (.str "string")
      if name = "account" ∨ name = "account-id" ∨ name = "accountId" then
        let (s, r) := generate_aws_account_id r
        some (.str s, r)
      else if name = "region" then
        some (.str DEFAULT_REGION, r)
      else if name = "id" ∨ strEnds name "Id" then
        let (n, r) := r.nextNat
        some (.str (uuid4String n), r)
      else if name = "time" ∨ strEnds name "Time" ∨ strEnds name "At" then
        let (t, r) := r.nextTime
        some (.str (pyReplace (isoformatUTC t) "+00:00" "Z"), r)
      else if strContains (strLower name) "arn" then
        let service := if strContains name "Arn" then strLower (headBeforeArn name) else "service"
        let (s, r) := generate_arn service "resource" none none none r
        some (.str s, r)
      else if name = "source" then
        let (w, r) := r.nextWord
        some (.str ("demo.aws." ++ w), r)
      else if jeqStr property_type "string" then
        if strEnds (strLower name) "name" then
          let (w1, r) := r.nextWord
          let (w2, r) := r.nextWord
          some (.str (w1 ++ "-" ++ w2), r)
        else if strContains (strLower name) "ip" then
          let (s, r) := r.nextIpv4
          some (.str s, r)
        else if strContains (strLower name) "etag" then
          let (s, r) := r.nextMd5
          some (.str s, r)
        else if strContains (strLower name) "key" then
          let (w, r) := r.nextWord
          let (f, r) := r.nextFileName
          some (.str (w ++ "/" ++ f), r)
        else
          let (w, r) := r.nextWord
          some (.str w, r)
      else if jeqStr property_type "number" ∨ jeqStr property_type "integer" then
        -- random.randint(1, 10000)
        let (n, r) := r.nextNat
        some (.num (1 + (n % 10000 : Nat) : Int), r)
      else if jeqStr property_type "boolean" then
        -- random.choice([True, False])
        let (n, r) := r.nextNat
        some (.bool (decide (n % 2 = 0)), r)
      else if jeqStr property_type "array" then
        let items_schema := jgetD schema "items" (.obj [])
        -- random.randint(1, 3)
        let (n, r) := r.nextNat
        gen fuel comps (.arrOf (1 + n % 3) name items_schema) r
      else if jeqStr property_type "object" then
        if pyHasKey schema "properties" then
          gen fuel comps (.objOf schema) r
        else
          -- random.randint(1, 3) entries of word: word
          let (n, r) := r.nextNat
          let (kvs, r) := randWordPairs (1 + n % 3) r
          some (.obj kvs, r)
      else
        let (w, r) := r.nextWord
        some (.str w, r)
    | .objOf schema =>
      -- generate_object_from_schema(schema)
      if !pyHasKey schema "properties" then
        some (.obj [], r)
      else
        gen fuel comps
          (.props (jEntries (jgetD schema "properties" (.obj [])))
            (jgetD schema "required" (.arr []))) r
    | .props propsList required =>
      match propsList with
      | [] => some (.obj [], r)
      | (prop_name, prop_schema) :: rest =>
        -- if prop_name in required or random.random() > 0.2 (short-circuit:
        -- the draw happens only when the name is not required)
        if pyIn prop_name required then
          gen fuel comps (.prop1 prop_name prop_schema rest required) r
        else
          let (q, r) := r.nextRat
          if gtPointTwo q then
            gen fuel comps (.prop1 prop_name prop_schema rest required) r
          else
            gen fuel comps (.props rest required) r
    | .prop1 prop_name prop_schema rest required =>
      if pyHasKey prop_schema "$ref" then
        let ref_path := asStr (jgetD prop_schema "$ref" (.str ""))
        let component_name := lastSeg ref_path
        match jget comps component_name with
        | some comp =>
          match gen fuel comps (.objOf comp) r with
          | none => none
          | some (v, r) =>
            match gen fuel comps (.props rest required) r with
            | none => none
            | some (.obj kvs, r) => some (.obj ((prop_name, v) :: kvs), r)
            | some _ => none
        | none =>
          -- dangling reference: generate_value_for_property(prop_name, {})
          match gen fuel comps (.val prop_name (.obj [])) r with
          | none => none
          | some (v, r) =>
            match gen fuel comps (.props rest required) r with
            | none => none
            | some (.obj kvs, r) => some (.obj ((prop_name, v) :: kvs), r)
            | some _ => none
      else
        match gen fuel comps (.val prop_name prop_schema) r with
        | none => none
        | some (v, r) =>
          match gen fuel comps (.props rest required) r with
          | none => none
          | some (.obj kvs, r) => some (.obj ((prop_name, v) :: kvs), r)
          | some _ => none
    | .arrOf count name items =>
      match count with
      | 0 => some (.arr [], r)
      | c+1 =>
        match gen fuel comps (.val (name ++ "_item") items) r with
        | none => none
        | some (v, r) =>
          match gen fuel comps (.arrOf c name items) r with
          | none => none
          | some (.arr vs, r) => some (.arr (v :: vs), r)
          | some _ => none

/-- Embeds `generate_value_for_property(property_name, property_schema)`
run against component table `comps` with call-stack budget `fuel`. -/
def generate_value_for_property (fuel : Nat) (comps : JValue)
    (property_name : String) (property_schema : JValue) (r : Rng) :
    Option (JValue × Rng) :=
  gen fuel comps (.val property_name property_schema) r

/-- Embeds `generate_object_from_schema(schema)` run against component
table `comps` with call-stack budget `fuel`. -/
def generate_object_from_schema (fuel : Nat) (comps : JValue)
    (schema : JValue) (r : Rng) : Option (JValue × Rng) :=
  gen fuel comps (.objOf schema) r

/-! ## The envelope assembler -/

/-- The component table of a document:
`schema.get('components', {}).get('schemas', {})` (source line 140). -/
def schemaComponentsOf (doc : JValue) : JValue :=
  jgetD (jgetD doc "components" (.obj [])) "schemas" (.obj [])

/-- The root descriptor slot:
`schema_components.get('AWSEvent', {})` (source line 143). -/
def awsNodeOf (doc : JValue) : JValue :=
  jgetD (schemaComponentsOf doc) "AWSEvent" (.obj [])

/-- The raw source label, with the absent-metadata substitute:
`aws_event_schema.get('x-amazon-events-source', 'aws.unknown')`
(source line 150). -/
def rawSourceOf (doc : JValue) : String :=
  asStr (jgetD (awsNodeOf doc) "x-amazon-events-source" (.str "aws.unknown"))

/-- The rewritten source label placed in the event (source lines 153-154). -/
def eventSourceOf (doc : JValue) : String :=
  "demo.aws." ++ pyReplace (rawSourceOf doc) "aws." ""

/-- The detail reference slot:
`aws_event_schema.get('properties', {}).get('detail', {}).get('$ref')`
(source line 181). -/
def detailRefOf (doc : JValue) : Option JValue :=
  jget (jgetD (jgetD (awsNodeOf doc) "properties" (.obj [])) "detail" (.obj [])) "$ref"

/-- Outcome of one `generate_event_from_schema` call on an already parsed
document.  `structureError` is the `return None` after the
`AWSEvent schema not found` message (the spec's `SchemaStructureError`):
by construction it carries no event, so no partial event can escape.
`outOfFuel` models the only other way the call can fail to return: the
unbounded `$ref` recursion of the detail materialization. -/
inductive AssembleResult : Type where
  | ok (event : List (String × JValue)) (r : Rng)
  | structureError
  | outOfFuel

/-- The event of an `ok` outcome. -/
def AssembleResult.event : AssembleResult → Option (List (String × JValue))
  | .ok e _ => some e
  | _ => none

/-- Embeds `generate_event_from_schema(schema_path, region)` from the point
where the document has been parsed (lines 139-193 of the source; locating
and parsing the file is the caller's concern per the spec).  `fuel` is the
call-stack budget handed to the detail materialization. -/
def generate_event_from_schema (fuel : Nat) (schema : JValue)
    (regionArg : Option String) (r : Rng) : AssembleResult :=
  -- if not region: region = DEFAULT_REGION
  let region := if pyFalsyOptStr regionArg then DEFAULT_REGION else regionArg.getD ""
  -- schema_components = schema.get('components', {}).get('schemas', {})
  let schema_components := schemaComponentsOf schema
  -- aws_event_schema = schema_components.get('AWSEvent', {})
  let aws_event_schema := awsNodeOf schema
  -- if not aws_event_schema: return None
  if !jtruthy aws_event_schema then
    .structureError
  else
    let detail_type := jgetD aws_event_schema "x-amazon-events-detail-type" (.str "Unknown Event")
    -- source_service = source.replace('aws.', '')
    let source_service := pyReplace (rawSourceOf schema) "aws." ""
    let source := "demo.aws." ++ source_service
    let (account_id, r) := generate_aws_account_id r
    -- one resource ARN
    let (resource, r) :=
      if source_service = "s3" then
        let (n, r) := r.nextNat
        ("arn:aws:s3:::" ++ "example-bucket-" ++ uuidHex8 n, r)
      else
        let (n, r) := r.nextNat
        ("arn:aws:" ++ source_service ++ ":" ++ region ++ ":" ++ account_id ++
          ":resource/" ++ "test-resource-" ++ uuidHex8 n, r)
    let (eid, r) := r.nextNat
    let (t, r) := r.nextTime
    let event : List (String × JValue) :=
      [("version", .str "0"),
       ("id", .str (uuid4String eid)),
       ("detail-type", detail_type),
       ("source", .str source),
       ("account", .str account_id),
       ("time", .str (pyReplace (isoformatUTC t) "+00:00" "Z")),
       ("region", .str region),
       ("resources", .arr [.str resource])]
    -- detail_schema_ref = aws_event_schema.get('properties', {}).get('detail', {}).get('$ref')
    let detail_schema_ref := detailRefOf schema
    -- if detail_schema_ref: (Python truthiness: absent or falsy takes the fallback)
    match detail_schema_ref with
    | some dr =>
      if jtruthy dr then
        let detail_schema_name := lastSeg (asStr dr)
        match jget schema_components detail_schema_name with
        | some comp =>
          match gen fuel schema_components (.objOf comp) r with
          | some (v, r) => .ok (event ++ [("detail", v)]) r
          | none => .outOfFuel
        | none =>
          -- dangling reference: neither branch of the inner if runs, the
          -- event is returned without any detail entry
          .ok event r
      else
        let (t2, r) := r.nextTime
        .ok (event ++
          [("detail", .obj
            [("message", .str ("Test event generated for " ++ source)),
             ("timestamp", .str (isoformatUTC t2))])]) r
    | none =>
      let (t2, r) := r.nextTime
      .ok (event ++
        [("detail", .obj
          [("message", .str ("Test event generated for " ++ source)),
           ("timestamp", .str (isoformatUTC t2))])]) r

/-! ## Structural measures and side conditions -/

mutual
/-- Structural size of a JSON tree; used to bound the fuel a reference-free
generation needs. -/
def jsize : JValue → Nat
  | .str _ => 1
  | .num _ => 1
  | .bool _ => 1
  | .arr xs => 1 + jsizeList xs
  | .obj kvs => 1 + jsizePairs kvs
def jsizeList : List JValue → Nat
  | [] => 0
  | v :: vs => jsize v + jsizeList vs
def jsizePairs : List (String × JValue) → Nat
  | [] => 0
  | p :: ps => 1 + jsize p.2 + jsizePairs ps
end

mutual
/-- No object anywhere in the tree has a `"$ref"` key: generating from such
a descriptor never consults the component table, so it cannot recurse
through it. -/
def RefFree : JValue → Bool
  | .str _ => true
  | .num _ => true
  | .bool _ => true
  | .arr xs => RefFreeList xs
  | .obj kvs => RefFreePairs kvs
def RefFreeList : List JValue → Bool
  | [] => true
  | v :: vs => RefFree v && RefFreeList vs
def RefFreePairs : List (String × JValue) → Bool
  | [] => true
  | p :: ps => !decide (p.1 = "$ref") && RefFree p.2 && RefFreePairs ps
end

/-- Keys of an association list are pairwise distinct (Python dicts cannot
hold a duplicate key). -/
def keysDistinct : List (String × JValue) → Bool
  | [] => true
  | p :: ps => ps.all (fun q => !decide (q.1 = p.1)) && keysDistinct ps

/-- Is a JSON string. -/
def isStrJ : JValue → Bool
  | .str _ => true
  | _ => false

/-- Is a JSON object. -/
def isObjJ : JValue → Bool
  | .obj _ => true
  | _ => false

/-- Is a JSON array of strings. -/
def isStrArr : JValue → Bool
  | .arr xs => xs.all isStrJ
  | _ => false

/-- Is a JSON object all of whose values are objects. -/
def isObjOfObjs : JValue → Bool
  | .obj kvs => kvs.all fun p => isObjJ p.2
  | _ => false

/-- Per-key typing discipline for schema documents: exactly what keeps every
operation the Python source performs on the tree well-typed (no
`TypeError`/`AttributeError`).  `$ref` values are split and must be
strings; `required` is consumed by list membership against property-name
strings; `components`/`items` are `.get` receivers; `schemas`/`properties`
are `.get`/iteration receivers whose values themselves receive `.get`; the
two vendor-metadata labels are used as strings. -/
def jwfKey (k : String) (v : JValue) : Bool :=
  (if k = "$ref" then isStrJ v else true) &&
  (if k = "required" then isStrArr v else true) &&
  (if k = "components" ∨ k = "items" then isObjJ v else true) &&
  (if k = "schemas" ∨ k = "properties" then isObjOfObjs v else true) &&
  (if k = "x-amazon-events-source" ∨ k = "x-amazon-events-detail-type" then isStrJ v else true)

mutual
/-- Well-formed schema document: distinct keys at every object, and the
per-key typing discipline `jwfKey` everywhere.  Documents outside `jwf`
make the Python source raise before producing anything. -/
def jwf : JValue → Bool
  | .str _ => true
  | .num _ => true
  | .bool _ => true
  | .arr xs => jwfList xs
  | .obj kvs => keysDistinct kvs && jwfPairs kvs
def jwfList : List JValue → Bool
  | [] => true
  | v :: vs => jwf v && jwfList vs
def jwfPairs : List (String × JValue) → Bool
  | [] => true
  | p :: ps => jwfKey p.1 p.2 && jwf p.2 && jwfPairs ps
end

/-! ## Lemmas about the string and format helpers -/

theorem isPrefixOf_append_self (l t : List Char) : l.isPrefixOf (l ++ t) = true := by
  simp [List.isPrefixOf_iff_prefix]

theorem isPrefixOf_append_of {p q : List Char} (t : List Char)
    (h : p.isPrefixOf q = true) : p.isPrefixOf (q ++ t) = true := by
  simp only [List.isPrefixOf_iff_prefix] at h ⊢
  exact h.trans (List.prefix_append _ _)

theorem replaceAux_nil (pat rep : List Char) (f : Nat) : replaceAux pat rep f [] = [] := by
  cases f <;> rfl

/-- Scanning a stretch that cannot start the pattern `'+' :: p'` copies it
unchanged and spends one fuel per character. -/
theorem replaceAux_plusfree (p' rep : List Char) :
    ∀ (cs t : List Char) (f : Nat), (∀ c ∈ cs, c ≠ '+') → cs.length + 1 ≤ f →
      replaceAux ('+' :: p') rep f (cs ++ t) =
        cs ++ replaceAux ('+' :: p') rep (f - cs.length) t
  | [], _, _, _, _ => by simp
  | c :: cs, t, f, h, hf => by
    obtain ⟨g, rfl⟩ : ∃ g, f = g + 1 := ⟨f - 1, by omega⟩
    have hc : c ≠ '+' := h c (by simp)
    have hpre : ('+' :: p').isPrefixOf (c :: (cs ++ t)) = false := by
      simp [List.isPrefixOf_cons₂]
      intro hcc
      exact absurd hcc.symm hc
    simp only [List.cons_append, replaceAux]
    rw [if_neg (by simp [hpre])]
    simp only [List.append_eq]
    rw [replaceAux_plusfree p' rep cs t g (fun c hc => h c (by simp [hc])) (by simpa using hf)]
    have he : g - cs.length = g + 1 - (c :: cs).length := by
      simp only [List.length_cons]
      omega
    rw [he]

/-- The digits `0-9` are what `Nat.digitChar` yields below ten. -/
theorem digitChar_isDigit {m : Nat} (h : m < 10) : (Nat.digitChar m).isDigit = true := by
  interval_cases m <;> decide

theorem natDigitsAux_digits :
    ∀ (f n : Nat) (acc : List Char), (∀ c ∈ acc, c.isDigit = true) →
      ∀ c ∈ natDigitsAux f n acc, c.isDigit = true
  | 0, n, acc, hacc => by
    simp only [natDigitsAux]
    intro c hc
    rcases List.mem_cons.1 hc with h | h
    · exact h ▸ digitChar_isDigit (Nat.mod_lt _ (by norm_num))
    · exact hacc c h
  | f+1, n, acc, hacc => by
    simp only [natDigitsAux]
    split
    · intro c hc
      rcases List.mem_cons.1 hc with h | h
      · exact h ▸ digitChar_isDigit (by omega)
      · exact hacc c h
    · refine natDigitsAux_digits f (n / 10) _ ?_
      intro c hc
      rcases List.mem_cons.1 hc with h | h
      · exact h ▸ digitChar_isDigit (Nat.mod_lt _ (by norm_num))
      · exact hacc c h

theorem natToDigits_digits (n : Nat) : ∀ c ∈ natToDigits n, c.isDigit = true :=
  natDigitsAux_digits n n [] (by simp)

theorem natDigitsAux_length_le :
    ∀ (k f n : Nat) (acc : List Char), n < 10 ^ k → 1 ≤ k →
      (natDigitsAux f n acc).length ≤ k + acc.length
  | 0, _, _, _, _, hk => absurd hk (by omega)
  | k+1, 0, n, acc, _, _ => by
    simp only [natDigitsAux, List.length_cons]
    omega
  | k+1, f+1, n, acc, hn, _ => by
    simp only [natDigitsAux]
    split
    · simp only [List.length_cons]; omega
    · rename_i hn10
      have hk1 : 1 ≤ k := by
        by_contra hk0
        have : k = 0 := by omega
        subst this
        simp at hn
        omega
    -- n / 10 < 10 ^ k
      have hdiv : n / 10 < 10 ^ k := by
        have : n < 10 ^ k * 10 := by
          calc n < 10 ^ (k + 1) := hn
          _ = 10 ^ k * 10 := by ring
        omega
      have := natDigitsAux_length_le k f (n / 10) (Nat.digitChar (n % 10) :: acc) hdiv hk1
      simp only [List.length_cons] at this
      omega

theorem natDigitsAux_length_pos :
    ∀ (f n : Nat) (acc : List Char), acc.length < (natDigitsAux f n acc).length
  | 0, _, acc => by simp [natDigitsAux]
  | f+1, n, acc => by
    simp only [natDigitsAux]
    split
    · simp
    · have := natDigitsAux_length_pos f (n / 10) (Nat.digitChar (n % 10) :: acc)
      simp only [List.length_cons] at this
      omega

theorem natToDigits_length_le {k n : Nat} (hn : n < 10 ^ k) (hk : 1 ≤ k) :
    (natToDigits n).length ≤ k := by
  have := natDigitsAux_length_le k n n [] hn hk
  simpa using this

theorem natToDigits_length_pos (n : Nat) : 0 < (natToDigits n).length := by
  have := natDigitsAux_length_pos n n []
  simpa using this

theorem padLeft_length_of_le {w : Nat} {ds : List Char} (h : ds.length ≤ w) :
    (padLeft w ds).length = w := by
  simp only [padLeft, List.length_append, List.length_replicate]
  omega

theorem padLeft_digits {w : Nat} {ds : List Char} (h : ∀ c ∈ ds, c.isDigit = true) :
    ∀ c ∈ padLeft w ds, c.isDigit = true := by
  intro c hc
  rcases List.mem_append.1 hc with h1 | h1
  · have := List.eq_of_mem_replicate h1
    subst this
    decide
  · exact h c h1

theorem pad2_length {n : Nat} (h : n ≤ 99) : (pad2 n).length = 2 :=
  padLeft_length_of_le (@natToDigits_length_le 2 n (by omega) (by omega))

theorem pad4_length {n : Nat} (h : n ≤ 9999) : (pad4 n).length = 4 :=
  padLeft_length_of_le (@natToDigits_length_le 4 n (by omega) (by omega))

theorem pad6_length {n : Nat} (h : n ≤ 999999) : (pad6 n).length = 6 :=
  padLeft_length_of_le (@natToDigits_length_le 6 n (by omega) (by omega))

theorem pad2_digits (n : Nat) : ∀ c ∈ pad2 n, c.isDigit = true :=
  padLeft_digits (natToDigits_digits n)

theorem pad4_digits (n : Nat) : ∀ c ∈ pad4 n, c.isDigit = true :=
  padLeft_digits (natToDigits_digits n)

theorem pad6_digits (n : Nat) : ∀ c ∈ pad6 n, c.isDigit = true :=
  padLeft_digits (natToDigits_digits n)

theorem expectDigits_append :
    ∀ {k : Nat} {ds : List Char} (t : List Char), ds.length = k →
      (∀ c ∈ ds, c.isDigit = true) → expectDigits k (ds ++ t) = some t := by
  intro k ds
  induction ds generalizing k with
  | nil =>
    intro t hlen _
    subst hlen
    simp [expectDigits]
  | cons c cs ih =>
    intro t hlen hd
    subst hlen
    simp only [List.length_cons, List.cons_append, expectDigits, hd c (by simp), if_true]
    exact ih t rfl fun c hc => hd c (by simp [hc])

theorem expectChar_cons (c : Char) (t : List Char) : expectChar c (c :: t) = some t := by
  simp [expectChar]

theorem expectHexs_append :
    ∀ {k : Nat} {ds : List Char} (t : List Char), ds.length = k →
      (∀ c ∈ ds, isHexChar c = true) → expectHexs k (ds ++ t) = some t := by
  intro k ds
  induction ds generalizing k with
  | nil =>
    intro t hlen _
    subst hlen
    simp [expectHexs]
  | cons c cs ih =>
    intro t hlen hd
    subst hlen
    simp only [List.length_cons, List.cons_append, expectHexs, hd c (by simp), if_true]
    exact ih t rfl fun c hc => hd c (by simp [hc])

theorem isDigit_isHex {c : Char} (h : c.isDigit = true) : isHexChar c = true := by
  simp [isHexChar, h]

theorem hexDigits_length (k n : Nat) : (hexDigits k n).length = k := by
  simp [hexDigits]

theorem digitChar_isHex {m : Nat} (h : m < 16) : isHexChar (Nat.digitChar m) = true := by
  interval_cases m <;> decide

theorem hexDigits_hex (k n : Nat) : ∀ c ∈ hexDigits k n, isHexChar c = true := by
  intro c hc
  simp only [hexDigits, List.mem_map] at hc
  obtain ⟨i, _, rfl⟩ := hc
  exact digitChar_isHex (Nat.mod_lt _ (by norm_num))

theorem isDigit_ne_plus {c : Char} (h : c.isDigit = true) : c ≠ '+' := by
  intro he
  subst he
  exact absurd h (by decide)

theorem forall_ne_plus_append {l1 l2 : List Char} (h1 : ∀ c ∈ l1, c ≠ '+')
    (h2 : ∀ c ∈ l2, c ≠ '+') : ∀ c ∈ l1 ++ l2, c ≠ '+' := by
  intro c hc
  rcases List.mem_append.1 hc with h | h
  · exact h1 c h
  · exact h2 c h

theorem forall_ne_plus_cons {a : Char} {l : List Char} (ha : a ≠ '+')
    (h : ∀ c ∈ l, c ≠ '+') : ∀ c ∈ a :: l, c ≠ '+' := by
  intro c hc
  rcases List.mem_cons.1 hc with h1 | h1
  · exact h1 ▸ ha
  · exact h c h1

/-- No character of the offset-free part of an isoformat rendering is
`'+'`, so `str.replace('+00:00', 'Z')` touches only the offset. -/
theorem isoBase_no_plus (t : DateTime) : ∀ c ∈ isoBase t, c ≠ '+' := by
  unfold isoBase
  refine forall_ne_plus_append (fun c hc => isDigit_ne_plus (pad4_digits _ c hc)) ?_
  refine forall_ne_plus_cons (by decide) ?_
  refine forall_ne_plus_append (fun c hc => isDigit_ne_plus (pad2_digits _ c hc)) ?_
  refine forall_ne_plus_cons (by decide) ?_
  refine forall_ne_plus_append (fun c hc => isDigit_ne_plus (pad2_digits _ c hc)) ?_
  refine forall_ne_plus_cons (by decide) ?_
  refine forall_ne_plus_append (fun c hc => isDigit_ne_plus (pad2_digits _ c hc)) ?_
  refine forall_ne_plus_cons (by decide) ?_
  refine forall_ne_plus_append (fun c hc => isDigit_ne_plus (pad2_digits _ c hc)) ?_
  refine forall_ne_plus_cons (by decide) ?_
  refine forall_ne_plus_append (fun c hc => isDigit_ne_plus (pad2_digits _ c hc)) ?_
  by_cases hm : t.micro = 0
  · rw [if_pos hm]
    intro c hc
    simp at hc
  · rw [if_neg hm]
    exact forall_ne_plus_cons (by decide)
      (fun c hc => isDigit_ne_plus (pad6_digits _ c hc))

/-- Replacing `+00:00` with `Z` in a string of the form
`base ++ "+00:00"` with no `'+'` in `base` yields `base ++ "Z"`. -/
theorem pyReplace_offset (base : List Char) (h : ∀ c ∈ base, c ≠ '+') :
    pyReplace (String.mk (base ++ ('+' :: '0' :: '0' :: ':' :: '0' :: '0' :: [])))
      "+00:00" "Z" = String.mk (base ++ ['Z']) := by
  show String.mk (replaceAux _ _ _ _) = _
  have hlen : (base ++ ('+' :: '0' :: '0' :: ':' :: '0' :: '0' :: [])).length =
      base.length + 6 := by simp
  rw [hlen]
  have hdata : ("+00:00").data = ('+' :: '0' :: '0' :: ':' :: '0' :: '0' :: []) := rfl
  rw [hdata]
  rw [replaceAux_plusfree ('0' :: '0' :: ':' :: '0' :: '0' :: []) ("Z").data base
    ('+' :: '0' :: '0' :: ':' :: '0' :: '0' :: []) (base.length + 6) h (by omega)]
  have : base.length + 6 - base.length = 6 := by omega
  rw [this]
  rfl

/-- Replacing the offset in a full isoformat rendering. -/
theorem pyReplace_isoformat (t : DateTime) :
    pyReplace (isoformatUTC t) "+00:00" "Z" = String.mk (isoBase t ++ ['Z']) := by
  have : isoformatUTC t =
      String.mk (isoBase t ++ ('+' :: '0' :: '0' :: ':' :: '0' :: '0' :: [])) := rfl
  rw [this, pyReplace_offset _ (isoBase_no_plus t)]

/-- The `YYYY-MM-DDTHH:MM:SS` core parser accepts the rendering of any
in-range datetime and hands back the rest. -/
theorem isoCore_base (t : DateTime) (hv : t.Valid) (tail : List Char) :
    isoCore (isoBase t ++ tail) =
      some ((if t.micro = 0 then [] else '.' :: pad6 t.micro) ++ tail) := by
  obtain ⟨h1, h2, h3, h4, h5, h6, h7⟩ := hv
  simp only [isoBase, List.cons_append, List.append_assoc]
  simp only [isoCore]
  rw [expectDigits_append _ (pad4_length h1) (pad4_digits _)]
  simp only [Option.some_bind, expectChar_cons]
  rw [expectDigits_append _ (pad2_length h2) (pad2_digits _)]
  simp only [Option.some_bind, expectChar_cons]
  rw [expectDigits_append _ (pad2_length h3) (pad2_digits _)]
  simp only [Option.some_bind, expectChar_cons]
  rw [expectDigits_append _ (pad2_length h4) (pad2_digits _)]
  simp only [Option.some_bind, expectChar_cons]
  rw [expectDigits_append _ (pad2_length h5) (pad2_digits _)]
  simp only [Option.some_bind, expectChar_cons]
  rw [expectDigits_append _ (pad2_length h6) (pad2_digits _)]

/-- The event time field (`isoformat` with the offset rewritten to `Z`)
matches `YYYY-MM-DDTHH:MM:SS(.ffffff)?Z`. -/
theorem isIsoZ_time (t : DateTime) (hv : t.Valid) :
    isIsoZ (pyReplace (isoformatUTC t) "+00:00" "Z") = true := by
  rw [pyReplace_isoformat]
  show (match isoCore (isoBase t ++ ['Z']) with
    | some ['Z'] => true
    | some ('.' :: rest) =>
      match expectDigits 6 rest with
      | some ['Z'] => true
      | _ => false
    | _ => false) = true
  rw [isoCore_base t hv]
  by_cases hm : t.micro = 0
  · rw [if_pos hm]
    rfl
  · rw [if_neg hm]
    have h6 : t.micro ≤ 999999 := hv.2.2.2.2.2.2
    simp only [List.cons_append]
    have : expectDigits 6 (pad6 t.micro ++ ['Z']) = some ['Z'] :=
      expectDigits_append _ (pad6_length h6) (pad6_digits _)
    rw [this]
    rfl

/-- The fallback detail timestamp (plain `isoformat`) matches
`YYYY-MM-DDTHH:MM:SS(.ffffff)?+00:00`. -/
theorem isIsoOffset_isoformat (t : DateTime) (hv : t.Valid) :
    isIsoOffset (isoformatUTC t) = true := by
  show (match isoCore (isoChars t) with
    | some ('+' :: '0' :: '0' :: ':' :: '0' :: '0' :: []) => true
    | some ('.' :: rest) =>
      match expectDigits 6 rest with
      | some ('+' :: '0' :: '0' :: ':' :: '0' :: '0' :: []) => true
      | _ => false
    | _ => false) = true
  show (match isoCore (isoBase t ++ _) with
    | some ('+' :: '0' :: '0' :: ':' :: '0' :: '0' :: []) => true
    | some ('.' :: rest) =>
      match expectDigits 6 rest with
      | some ('+' :: '0' :: '0' :: ':' :: '0' :: '0' :: []) => true
      | _ => false
    | _ => false) = true
  rw [isoCore_base t hv]
  by_cases hm : t.micro = 0
  · rw [if_pos hm]
    rfl
  · rw [if_neg hm]
    have h6 : t.micro ≤ 999999 := hv.2.2.2.2.2.2
    simp only [List.cons_append]
    have : expectDigits 6 (pad6 t.micro ++ ('+' :: '0' :: '0' :: ':' :: '0' :: '0' :: [])) =
        some ('+' :: '0' :: '0' :: ':' :: '0' :: '0' :: []) :=
      expectDigits_append _ (pad6_length h6) (pad6_digits _)
    rw [this]
    rfl

theorem uuidGroupFour_hex (m : Nat) : ∀ c ∈ ('4' :: hexDigits 3 m), isHexChar c = true := by
  intro c hc
  rcases List.mem_cons.1 hc with h | h
  · subst h; decide
  · exact hexDigits_hex 3 m c h

theorem uuidGroupVariant_hex (x m : Nat) :
    ∀ c ∈ (Nat.digitChar (8 + x % 4) :: hexDigits 3 m), isHexChar c = true := by
  intro c hc
  rcases List.mem_cons.1 hc with h | h
  · subst h
    exact digitChar_isHex (by omega)
  · exact hexDigits_hex 3 m c h

theorem digitAlphabet_getD (i : Nat) : (digitAlphabet.getD (i % 10) '0').isDigit = true := by
  have h : i % 10 < 10 := Nat.mod_lt _ (by norm_num)
  generalize hj : i % 10 = j at h
  interval_cases j <;> decide

theorem accountDigits_length : ∀ (k : Nat) (r : Rng), ((accountDigits k r).1).length = k
  | 0, _ => rfl
  | k+1, r => by
    simp only [accountDigits, Rng.nextNat, List.length_cons]
    rw [accountDigits_length k]

theorem accountDigits_digits :
    ∀ (k : Nat) (r : Rng), ∀ c ∈ (accountDigits k r).1, c.isDigit = true
  | 0, _ => by simp [accountDigits]
  | k+1, r => by
    simp only [accountDigits, Rng.nextNat]
    intro c hc
    rcases List.mem_cons.1 hc with h | h
    · exact h ▸ digitAlphabet_getD _
    · exact accountDigits_digits k _ c h

/-- `generate_aws_account_id` always yields 12 ASCII digits. -/
theorem generate_aws_account_id_format (r : Rng) :
    isAccountId (generate_aws_account_id r).1 = true := by
  simp only [generate_aws_account_id, isAccountId]
  have h1 : (String.mk (accountDigits 12 r).1).length = 12 := by
    show ((accountDigits 12 r).1).length = 12
    exact accountDigits_length 12 r
  simp only [h1]
  rw [show decide True = true from by decide]
  simp only [Bool.true_and]
  show ((accountDigits 12 r).1).all Char.isDigit = true
  rw [List.all_eq_true]
  exact accountDigits_digits 12 r

/-- Every string `generate_arn` produces starts with `arn:aws:`. -/
theorem generate_arn_starts (service rt : String) (reg acc rid : Option String) (r : Rng) :
    strStarts (generate_arn service rt reg acc rid r).1 "arn:aws:" = true := by
  unfold generate_arn
  rcases hacc : (if pyFalsyOptStr acc then generate_aws_account_id r
    else (acc.getD "", r)) with ⟨aid, r1⟩
  rcases hrid : (if pyFalsyOptStr rid then
      let (w, r) := r1.nextWord
      let (n, r) := r.nextNat
      (w ++ "-" ++ uuidHex8 n, r)
    else (rid.getD "", r1)) with ⟨rsid, r2⟩
  simp only [hacc, hrid]
  split
  · show strStarts ("arn:aws:s3:::" ++ rsid) "arn:aws:" = true
    unfold strStarts
    rw [String.data_append]
    exact isPrefixOf_append_of _ (by decide)
  · show strStarts ("arn:aws:" ++ service ++ ":" ++ _ ++ ":" ++ aid ++ ":" ++ rt ++
      "/" ++ rsid) "arn:aws:" = true
    unfold strStarts
    simp only [String.data_append, List.append_assoc]
    exact isPrefixOf_append_self _ _

/-- Every `uuid4String` rendering is in canonical 8-4-4-4-12 UUID form. -/
theorem isUuidFormat_uuid4 (n : Nat) : isUuidFormat (uuid4String n) = true := by
  unfold isUuidFormat
  have hdata : (uuid4String n).data =
      hexDigits 8 n ++ '-' :: (hexDigits 4 (n / 16 ^ 8) ++
        '-' :: (('4' :: hexDigits 3 (n / 16 ^ 12)) ++
        '-' :: ((Nat.digitChar (8 + n / 16 ^ 15 % 4) :: hexDigits 3 (n / 16 ^ 16)) ++
        '-' :: (hexDigits 12 (n / 16 ^ 19) ++ [])))) := by
    show (hexDigits 8 n ++ '-' :: hexDigits 4 (n / 16 ^ 8) ++
        '-' :: '4' :: hexDigits 3 (n / 16 ^ 12) ++
        '-' :: Nat.digitChar (8 + n / 16 ^ 15 % 4) :: hexDigits 3 (n / 16 ^ 16) ++
        '-' :: hexDigits 12 (n / 16 ^ 19)) = _
    simp
  rw [hdata]
  rw [expectHexs_append _ (hexDigits_length 8 n) (hexDigits_hex 8 n)]
  simp only [Option.some_bind, expectChar_cons]
  rw [expectHexs_append _ (hexDigits_length 4 _) (hexDigits_hex 4 _)]
  simp only [Option.some_bind, expectChar_cons]
  rw [expectHexs_append _ (by simp [hexDigits_length]) (uuidGroupFour_hex _)]
  simp only [Option.some_bind, expectChar_cons]
  rw [expectHexs_append _ (by simp [hexDigits_length]) (uuidGroupVariant_hex _ _)]
  simp only [Option.some_bind, expectChar_cons]
  rw [expectHexs_append _ (hexDigits_length 12 _) (hexDigits_hex 12 _)]

/-! ## Lemmas about the generation interpreter -/

/-- One-step unfolding of the `generate_value_for_property` request (the
`.val` branch of `gen`), with the `property_type` binding inlined; stated
once so later proofs can rewrite with it instead of unfolding the whole
interpreter. -/
theorem gen_val_succ (fuel : Nat) (comps : JValue) (name : String) (schema : JValue)
    (r : Rng) :
    gen (fuel+1) comps (.val name schema) r =
      (if name = "account" ∨ name = "account-id" ∨ name = "accountId" then
        let (s, r) := generate_aws_account_id r
        some (.str s, r)
      else if name = "region" then some (.str DEFAULT_REGION, r)
      else if name = "id" ∨ strEnds name "Id" then
        let (n, r) := r.nextNat
        some (.str (uuid4String n), r)
      else if name = "time" ∨ strEnds name "Time" ∨ strEnds name "At" then
        let (t, r) := r.nextTime
        some (.str (pyReplace (isoformatUTC t) "+00:00" "Z"), r)
      else if strContains (strLower name) "arn" then
        let service := if strContains name "Arn" then strLower (headBeforeArn name) else "service"
        let (s, r) := generate_arn service "resource" none none none r
        some (.str s, r)
      else if name = "source" then
        let (w, r) := r.nextWord
        some (.str ("demo.aws." ++ w), r)
      else if jeqStr (jgetD schema "type" (.str "string")) "string" then
        if strEnds (strLower name) "name" then
          let (w1, r) := r.nextWord
          let (w2, r) := r.nextWord
          some (.str (w1 ++ "-" ++ w2), r)
        else if strContains (strLower name) "ip" then
          let (s, r) := r.nextIpv4
          some (.str s, r)
        else if strContains (strLower name) "etag" then
          let (s, r) := r.nextMd5
          some (.str s, r)
        else if strContains (strLower name) "key" then
          let (w, r) := r.nextWord
          let (f, r) := r.nextFileName
          some (.str (w ++ "/" ++ f), r)
        else
          let (w, r) := r.nextWord
          some (.str w, r)
      else if jeqStr (jgetD schema "type" (.str "string")) "number" ∨
          jeqStr (jgetD schema "type" (.str "string")) "integer" then
        let (n, r) := r.nextNat
        some (.num (1 + (n % 10000 : Nat) : Int), r)
      else if jeqStr (jgetD schema "type" (.str "string")) "boolean" then
        let (n, r) := r.nextNat
        some (.bool (decide (n % 2 = 0)), r)
      else if jeqStr (jgetD schema "type" (.str "string")) "array" then
        let items_schema := jgetD schema "items" (.obj [])
        let (n, r) := r.nextNat
        gen fuel comps (.arrOf (1 + n % 3) name items_schema) r
      else if jeqStr (jgetD schema "type" (.str "string")) "object" then
        if pyHasKey schema "properties" then
          gen fuel comps (.objOf schema) r
        else
          let (n, r) := r.nextNat
          let (kvs, r) := randWordPairs (1 + n % 3) r
          some (.obj kvs, r)
      else
        let (w, r) := r.nextWord
        some (.str w, r)) := rfl

/-- A completed included-property step conses its property onto the object
produced by the rest of the loop. -/
theorem gen_prop1_cons {fuel : Nat} {comps : JValue} {nm : String} {d : JValue}
    {rest : List (String × JValue)} {req : JValue} {r : Rng} {v : JValue} {r' : Rng}
    (h : gen (fuel+1) comps (.prop1 nm d rest req) r = some (v, r')) :
    ∃ v1 kvs1 r2, v = .obj ((nm, v1) :: kvs1) ∧
      gen fuel comps (.props rest req) r2 = some (.obj kvs1, r') := by
  simp only [gen] at h
  split at h
  · split at h
    · split at h
      · exact absurd h (by simp)
      · rename_i v1 r2 heq
        split at h
        · exact absurd h (by simp)
        · rename_i kvs1 r3 heq2
          simp only [Option.some.injEq, Prod.mk.injEq] at h
          exact ⟨v1, kvs1, r2, h.1.symm, h.2 ▸ heq2⟩
        · exact absurd h (by simp)
    · split at h
      · exact absurd h (by simp)
      · rename_i v1 r2 heq
        split at h
        · exact absurd h (by simp)
        · rename_i kvs1 r3 heq2
          simp only [Option.some.injEq, Prod.mk.injEq] at h
          exact ⟨v1, kvs1, r2, h.1.symm, h.2 ▸ heq2⟩
        · exact absurd h (by simp)
  · split at h
    · exact absurd h (by simp)
    · rename_i v1 r2 heq
      split at h
      · exact absurd h (by simp)
      · rename_i kvs1 r3 heq2
        simp only [Option.some.injEq, Prod.mk.injEq] at h
        exact ⟨v1, kvs1, r2, h.1.symm, h.2 ▸ heq2⟩
      · exact absurd h (by simp)

/-- A completed property loop always yields a JSON object (the Python
function builds and returns the dict `obj`). -/
theorem gen_props_obj (fuel : Nat) :
    ∀ {comps : JValue} {l : List (String × JValue)} {req : JValue} {r : Rng}
      {v : JValue} {r' : Rng}, gen fuel comps (.props l req) r = some (v, r') →
      ∃ kvs, v = .obj kvs := by
  induction fuel using Nat.strong_induction_on with
  | _ fuel ih =>
    intro comps l req r v r' h
    match fuel, l with
    | 0, _ => exact absurd h (by simp [gen])
    | fuel+1, [] =>
      simp only [gen, Option.some.injEq, Prod.mk.injEq] at h
      exact ⟨[], h.1.symm⟩
    | fuel+1, (nm, d) :: rest =>
      have hstep : ∀ {r0 : Rng}, gen fuel comps (.prop1 nm d rest req) r0 = some (v, r') →
          ∃ kvs, v = .obj kvs := by
        intro r0 h0
        match fuel, h0 with
        | g+1, h0 =>
          obtain ⟨v1, kvs1, _, hv, _⟩ := gen_prop1_cons h0
          exact ⟨_, hv⟩
      simp only [gen] at h
      split at h
      · exact hstep h
      · simp only [Rng.nextRat] at h
        split at h
        · exact hstep h
        · exact ih fuel (by omega) h

/-- A completed `generate_object_from_schema` call always yields a JSON
object. -/
theorem gen_objOf_obj :
    ∀ (fuel : Nat) {comps s : JValue} {r : Rng} {v : JValue} {r' : Rng},
      gen fuel comps (.objOf s) r = some (v, r') → ∃ kvs, v = .obj kvs
  | 0, _, _, _, _, _, h => absurd h (by simp [gen])
  | fuel+1, comps, s, r, v, r', h => by
    simp only [gen] at h
    split at h
    · simp only [Option.some.injEq, Prod.mk.injEq] at h
      exact ⟨[], h.1.symm⟩
    · exact gen_props_obj fuel h

/-- A schema node with no `properties` entry materializes to the empty
object (and consumes no randomness). -/
theorem gen_objOf_noprops {s : JValue} (hs : pyHasKey s "properties" = false)
    (fuel : Nat) (comps : JValue) (r : Rng) :
    gen (fuel+1) comps (.objOf s) r = some (.obj [], r) := by
  simp [gen, hs]

theorem lookup_cons_isSome {nm nm0 : String} {v1 : JValue} {kvs1 : List (String × JValue)}
    (h : nm ≠ nm0 → (List.lookup nm kvs1).isSome = true) :
    (List.lookup nm ((nm0, v1) :: kvs1)).isSome = true := by
  by_cases he : nm = nm0
  · subst he
    simp [List.lookup]
  · rw [List.lookup_cons]
    have hbe : (nm == nm0) = false := by simpa using he
    rw [hbe]
    exact h he

/-- Every declared property listed in `required` is a key of the
materialized object: the inclusion test short-circuits on `required`
membership before any randomness is consulted. -/
theorem gen_props_required (fuel : Nat) :
    ∀ {comps : JValue} {l : List (String × JValue)} {req : JValue} {r : Rng}
      {kvs : List (String × JValue)} {r' : Rng},
      gen fuel comps (.props l req) r = some (.obj kvs, r') →
      ∀ (nm : String) (d : JValue), (nm, d) ∈ l → pyIn nm req = true →
        (List.lookup nm kvs).isSome = true := by
  induction fuel using Nat.strong_induction_on with
  | _ fuel ih =>
    intro comps l req r kvs r' h nm d hmem hreq
    match fuel, l, hmem with
    | 0, _, _ => exact absurd h (by simp [gen])
    | fuel+1, (nm0, d0) :: rest, hmem =>
      have hstep : ∀ {r0 : Rng}, gen fuel comps (.prop1 nm0 d0 rest req) r0 = some (.obj kvs, r') →
          (List.lookup nm kvs).isSome = true := by
        intro r0 h0
        match fuel, h0 with
        | g+1, h0 =>
          obtain ⟨v1, kvs1, r2, hv, hrest⟩ := gen_prop1_cons h0
          cases hv
          apply lookup_cons_isSome
          intro hne
          rcases List.mem_cons.1 hmem with hh | hh
          · exact absurd (congrArg Prod.fst hh) hne
          · exact ih g (by omega) hrest nm d hh hreq
      simp only [gen] at h
      split at h
      · exact hstep h
      · rename_i hin
        simp only [Rng.nextRat] at h
        split at h
        · exact hstep h
        · rcases List.mem_cons.1 hmem with hh | hh
          · have : nm = nm0 := congrArg Prod.fst hh
            subst this
            exact absurd hreq hin
          · exact ih fuel (by omega) h nm d hh hreq

/-- Every key of a materialized object is one of the declared property
names. -/
theorem gen_props_keys (fuel : Nat) :
    ∀ {comps : JValue} {l : List (String × JValue)} {req : JValue} {r : Rng}
      {kvs : List (String × JValue)} {r' : Rng},
      gen fuel comps (.props l req) r = some (.obj kvs, r') →
      ∀ nm, (List.lookup nm kvs).isSome = true → nm ∈ l.map Prod.fst := by
  induction fuel using Nat.strong_induction_on with
  | _ fuel ih =>
    intro comps l req r kvs r' h nm hnm
    match fuel, l with
    | 0, _ => exact absurd h (by simp [gen])
    | fuel+1, [] =>
      simp only [gen, Option.some.injEq, Prod.mk.injEq, JValue.obj.injEq] at h
      rw [← h.1] at hnm
      exact absurd hnm (by simp)
    | fuel+1, (nm0, d0) :: rest =>
      have hstep : ∀ {r0 : Rng},
          gen fuel comps (.prop1 nm0 d0 rest req) r0 = some (.obj kvs, r') →
          nm ∈ ((nm0, d0) :: rest).map Prod.fst := by
        intro r0 h0
        match fuel, h0 with
        | g+1, h0 =>
          obtain ⟨v1, kvs1, r2, hv, hrest⟩ := gen_prop1_cons h0
          cases hv
          by_cases he : nm = nm0
          · subst he
            simp
          · rw [List.lookup_cons, show (nm == nm0) = false from by simpa using he] at hnm
            have := ih g (by omega) hrest nm hnm
            simp only [List.map_cons, List.mem_cons]
            exact Or.inr this
      simp only [gen] at h
      split at h
      · exact hstep h
      · simp only [Rng.nextRat] at h
        split at h
        · exact hstep h
        · have := ih fuel (by omega) h nm hnm
          simp only [List.map_cons, List.mem_cons]
          exact Or.inr this

/-- An included property whose descriptor is a reference resolving to
component `comp` gets the object materialized from `comp` as its value. -/
theorem gen_prop1_ref {fuel : Nat} {comps : JValue} {nm : String} {d : JValue}
    {rest : List (String × JValue)} {req : JValue} {r : Rng} {v : JValue} {r' : Rng}
    (h : gen (fuel+1) comps (.prop1 nm d rest req) r = some (v, r'))
    (href : pyHasKey d "$ref" = true)
    {comp : JValue}
    (hcomp : jget comps (lastSeg (asStr (jgetD d "$ref" (.str "")))) = some comp) :
    ∃ v1 kvs1, v = .obj ((nm, v1) :: kvs1) ∧ (∃ kvso, v1 = .obj kvso) ∧
      (pyHasKey comp "properties" = false → v1 = .obj []) := by
  simp only [gen] at h
  rw [if_pos href] at h
  split at h
  · rename_i comp' hj
    rw [hcomp] at hj
    have hce : comp' = comp := by
      injection hj with hj1
      exact hj1.symm
    subst hce
    split at h
    · exact absurd h (by simp)
    · rename_i v1 r2 heq
      split at h
      · exact absurd h (by simp)
      · rename_i kvs1 r3 heq2
        simp only [Option.some.injEq, Prod.mk.injEq] at h
        refine ⟨v1, kvs1, h.1.symm, gen_objOf_obj fuel heq, ?_⟩
        intro hnp
        match fuel, heq with
        | g+1, heq =>
          rw [gen_objOf_noprops hnp g comps _] at heq
          simp only [Option.some.injEq, Prod.mk.injEq] at heq
          exact heq.1.symm
      · exact absurd h (by simp)
  · rename_i hj
    rw [hcomp] at hj
    exact absurd hj (by simp)

/-- In a property loop over distinct names, a property whose descriptor is
a resolvable reference materializes — when included — to a JSON object,
and to the empty object when the referenced component declares no
`properties`. -/
theorem gen_props_refObj (fuel : Nat) :
    ∀ {comps : JValue} {l : List (String × JValue)} {req : JValue} {r : Rng}
      {kvs : List (String × JValue)} {r' : Rng},
      gen fuel comps (.props l req) r = some (.obj kvs, r') →
      (l.map Prod.fst).Nodup →
      ∀ (nm : String) (d : JValue), (nm, d) ∈ l →
        pyHasKey d "$ref" = true →
        ∀ comp, jget comps (lastSeg (asStr (jgetD d "$ref" (.str "")))) = some comp →
        ∀ v, List.lookup nm kvs = some v →
          (∃ kvso, v = .obj kvso) ∧ (pyHasKey comp "properties" = false → v = .obj []) := by
  induction fuel using Nat.strong_induction_on with
  | _ fuel ih =>
    intro comps l req r kvs r' h hnd nm d hmem href comp hcomp v hv
    match fuel, l, hmem with
    | 0, _, _ => exact absurd h (by simp [gen])
    | fuel+1, (nm0, d0) :: rest, hmem =>
      have hndrest : (rest.map Prod.fst).Nodup := (List.nodup_cons.1 hnd).2
      have hnm0 : nm0 ∉ rest.map Prod.fst := (List.nodup_cons.1 hnd).1
      rcases List.mem_cons.1 hmem with hh | hh
      · -- our property is the head
        have he1 : nm0 = nm := (congrArg Prod.fst hh).symm
        have he2 : d0 = d := (congrArg Prod.snd hh).symm
        subst he1
        subst he2
        have hstep : ∀ {r0 : Rng},
            gen fuel comps (.prop1 nm0 d0 rest req) r0 = some (.obj kvs, r') →
            (∃ kvso, v = .obj kvso) ∧ (pyHasKey comp "properties" = false → v = .obj []) := by
          intro r0 h0
          match fuel, h0 with
          | g+1, h0 =>
            obtain ⟨v1, kvs1, hveq, hobj, hempty⟩ := gen_prop1_ref h0 href hcomp
            cases hveq
            rw [List.lookup_cons, show (nm0 == nm0) = true from by simp] at hv
            cases hv
            exact ⟨hobj, hempty⟩
        simp only [gen] at h
        split at h
        · exact hstep h
        · simp only [Rng.nextRat] at h
          split at h
          · exact hstep h
          · -- skipped: the name cannot be a key of the rest of the loop
            have := gen_props_keys fuel h nm0 (by simp [hv])
            exact absurd this hnm0
      · -- our property is in the tail
        have hne : nm ≠ nm0 := by
          intro he
          subst he
          exact hnm0 (by
            simp only [List.mem_map]
            exact ⟨(nm, d), hh, rfl⟩)
        have hstep : ∀ {r0 : Rng},
            gen fuel comps (.prop1 nm0 d0 rest req) r0 = some (.obj kvs, r') →
            (∃ kvso, v = .obj kvso) ∧ (pyHasKey comp "properties" = false → v = .obj []) := by
          intro r0 h0
          match fuel, h0 with
          | g+1, h0 =>
            obtain ⟨v1, kvs1, r2, hveq, hrest⟩ := gen_prop1_cons h0
            cases hveq
            rw [List.lookup_cons, show (nm == nm0) = false from by simpa using hne] at hv
            exact ih g (by omega) hrest hndrest nm d hh href comp hcomp v hv
        simp only [gen] at h
        split at h
        · exact hstep h
        · simp only [Rng.nextRat] at h
          split at h
          · exact hstep h
          · exact ih fuel (by omega) h hndrest nm d hh href comp hcomp v hv

/-- `generate_object_from_schema` always includes every declared property
listed in the node's `required` list. -/
theorem gen_objOf_required :
    ∀ (fuel : Nat) {comps s : JValue} {r : Rng} {kvs : List (String × JValue)} {r' : Rng},
      gen fuel comps (.objOf s) r = some (.obj kvs, r') →
      ∀ (nm : String) (d : JValue),
        (nm, d) ∈ jEntries (jgetD s "properties" (.obj [])) →
        pyIn nm (jgetD s "required" (.arr [])) = true →
        (List.lookup nm kvs).isSome = true
  | 0, _, _, _, _, _, h => absurd h (by simp [gen])
  | fuel+1, comps, s, r, kvs, r', h => by
    intro nm d hmem hreq
    simp only [gen] at h
    split at h
    · rename_i hnp
      have hnone : jget s "properties" = none := by
        rcases hj : jget s "properties" with _ | w
        · rfl
        · rw [pyHasKey, hj] at hnp
          simp at hnp
      rw [show jgetD s "properties" (.obj []) = .obj [] from by simp [jgetD, hnone]] at hmem
      exact absurd hmem (by simp [jEntries])
    · exact gen_props_required fuel h nm d hmem hreq

/-! ## Helpers for the totality argument -/

theorem mem_of_lookup_eq_some {k : String} {v : JValue} :
    ∀ {l : List (String × JValue)}, List.lookup k l = some v → (k, v) ∈ l := by
  intro l
  induction l with
  | nil => intro h; exact absurd h (by simp)
  | cons p t ih =>
    intro h
    rcases p with ⟨k', v'⟩
    rw [List.lookup_cons] at h
    by_cases he : (k == k') = true
    · rw [he] at h
      simp only [Option.some.injEq] at h
      have : k = k' := by simpa using he
      subst this
      subst h
      simp
    · rw [Bool.not_eq_true] at he
      rw [he] at h
      exact List.mem_cons_of_mem _ (ih h)

theorem jsize_pos : ∀ (v : JValue), 1 ≤ jsize v
  | .str _ => by simp [jsize]
  | .num _ => by simp [jsize]
  | .bool _ => by simp [jsize]
  | .arr _ => by simp [jsize]
  | .obj _ => by simp [jsize]

theorem jsizePairs_of_mem {p : String × JValue} :
    ∀ {l : List (String × JValue)}, p ∈ l → 1 + jsize p.2 ≤ jsizePairs l := by
  intro l
  induction l with
  | nil => intro h; exact absurd h (by simp)
  | cons q t ih =>
    intro h
    rcases List.mem_cons.1 h with h | h
    · subst h
      simp [jsizePairs]
    · have := ih h
      simp only [jsizePairs]
      omega

theorem jsizePairs_of_mem_two {p q : String × JValue} :
    ∀ {l : List (String × JValue)}, p ∈ l → q ∈ l → p.1 ≠ q.1 →
      (1 + jsize p.2) + (1 + jsize q.2) ≤ jsizePairs l := by
  intro l
  induction l with
  | nil => intro h; exact absurd h (by simp)
  | cons a t ih =>
    intro hp hq hne
    rcases List.mem_cons.1 hp with hp1 | hp1
    · subst hp1
      have hqt : q ∈ t := by
        rcases List.mem_cons.1 hq with hq1 | hq1
        · exact absurd (congrArg Prod.fst hq1.symm) hne
        · exact hq1
      have := jsizePairs_of_mem hqt
      simp only [jsizePairs]
      omega
    · rcases List.mem_cons.1 hq with hq1 | hq1
      · subst hq1
        have := jsizePairs_of_mem hp1
        simp only [jsizePairs]
        omega
      · have := ih hp1 hq1 hne
        simp only [jsizePairs]
        omega

theorem RefFree_of_mem_pairs {p : String × JValue} :
    ∀ {l : List (String × JValue)}, RefFreePairs l = true → p ∈ l →
      RefFree p.2 = true ∧ p.1 ≠ "$ref" := by
  intro l
  induction l with
  | nil => intro _ h; exact absurd h (by simp)
  | cons q t ih =>
    intro hrf h
    rw [RefFreePairs] at hrf
    simp only [Bool.and_eq_true, Bool.not_eq_eq_eq_not, Bool.not_true,
      decide_eq_false_iff_not] at hrf
    rcases List.mem_cons.1 h with h1 | h1
    · subst h1
      exact ⟨hrf.1.2, hrf.1.1⟩
    · exact ih hrf.2 h1

theorem RefFree_obj_entry {kvs : List (String × JValue)} {p : String × JValue}
    (hrf : RefFree (.obj kvs) = true) (h : p ∈ kvs) :
    RefFree p.2 = true ∧ p.1 ≠ "$ref" := by
  rw [RefFree] at hrf
  exact RefFree_of_mem_pairs hrf h

theorem RefFree_no_ref {d : JValue} (hrf : RefFree d = true) :
    pyHasKey d "$ref" = false := by
  match d with
  | .str _ | .num _ | .bool _ | .arr _ => rfl
  | .obj kvs =>
    rw [pyHasKey, jget]
    rcases hl : List.lookup "$ref" kvs with _ | v
    · rfl
    · have := RefFree_obj_entry hrf (mem_of_lookup_eq_some hl)
      exact absurd rfl this.2

theorem jeqStr_eq {v : JValue} {s : String} (h : jeqStr v s = true) : v = .str s := by
  match v, h with
  | .str t, h =>
    have : t = s := by simpa [jeqStr] using h
    subst this
    rfl

/-- The `type`-and-`items` size bound used for the array branch: both keys
present in a JSON object account for part of its size. -/
theorem jsize_items_bound {s items : JValue}
    (ht : jget s "type" = some (.str "array")) (hi : jget s "items" = some items) :
    jsize items + 4 ≤ jsize s := by
  match s, ht with
  | .obj kvs, ht =>
    rw [jget] at ht hi
    have hmt := mem_of_lookup_eq_some ht
    have hmi := mem_of_lookup_eq_some hi
    have hne : ("items", items).1 ≠ ("type", (JValue.str "array" : JValue)).1 := by
      simp
    have := jsizePairs_of_mem_two hmi hmt hne
    simp only [jsize] at this ⊢
    have h1 : jsize (JValue.str "array") = 1 := rfl
    omega

/-- The `properties` size bound used for the object branch. -/
theorem jsize_props_bound {s propsObj : JValue}
    (hp : jget s "properties" = some propsObj) :
    jsize propsObj + 2 ≤ jsize s := by
  match s, hp with
  | .obj kvs, hp =>
    rw [jget] at hp
    have := jsizePairs_of_mem (mem_of_lookup_eq_some hp)
    simp only [jsize] at this ⊢
    omega

theorem jsizePairs_entries_bound {propsObj : JValue} :
    jsizePairs (jEntries propsObj) + 1 ≤ jsize propsObj := by
  match propsObj with
  | .str _ | .num _ | .bool _ | .arr _ => simp [jEntries, jsizePairs, jsize]
  | .obj kvs =>
    simp only [jEntries, jsize]
    omega

/-- A completed array comprehension always yields a JSON array. -/
theorem gen_arrOf_arr :
    ∀ (fuel : Nat) {comps : JValue} {cnt : Nat} {nm : String} {items : JValue}
      {r : Rng} {v : JValue} {r' : Rng},
      gen fuel comps (.arrOf cnt nm items) r = some (v, r') → ∃ vs, v = .arr vs
  | 0, _, _, _, _, _, _, _, h => absurd h (by simp [gen])
  | fuel+1, comps, 0, nm, items, r, v, r', h => by
    simp only [gen, Option.some.injEq, Prod.mk.injEq] at h
    exact ⟨[], h.1.symm⟩
  | fuel+1, comps, c+1, nm, items, r, v, r', h => by
    simp only [gen] at h
    split at h
    · exact absurd h (by simp)
    · rename_i v1 r2 heq
      split at h
      · exact absurd h (by simp)
      · rename_i vs r3 heq2
        simp only [Option.some.injEq, Prod.mk.injEq] at h
        exact ⟨_, h.1.symm⟩
      · exact absurd h (by simp)

/-- Totality of the generators on reference-free schemas: with enough fuel
(linear in the schema size), every request completes.  The five conjuncts
cover the five request forms, each with the fuel bound its call sites
establish. -/
theorem gen_total (fuel : Nat) (comps : JValue) :
    (∀ (nm : String) (s : JValue) (r : Rng), RefFree s = true →
      10 * jsize s + 30 ≤ fuel → (gen fuel comps (.val nm s) r).isSome = true) ∧
    (∀ (s : JValue) (r : Rng), RefFree s = true →
      10 * jsize s + 29 ≤ fuel → (gen fuel comps (.objOf s) r).isSome = true) ∧
    (∀ (l : List (String × JValue)) (req : JValue) (r : Rng),
      (∀ p ∈ l, RefFree p.2 = true) →
      10 * jsizePairs l + 25 ≤ fuel → (gen fuel comps (.props l req) r).isSome = true) ∧
    (∀ (nm : String) (d : JValue) (rest : List (String × JValue)) (req : JValue) (r : Rng),
      RefFree d = true → (∀ p ∈ rest, RefFree p.2 = true) →
      10 * (1 + jsize d + jsizePairs rest) + 24 ≤ fuel →
      (gen fuel comps (.prop1 nm d rest req) r).isSome = true) ∧
    (∀ (cnt : Nat) (nm : String) (items : JValue) (r : Rng), RefFree items = true →
      3 * cnt + 10 * jsize items + 30 ≤ fuel →
      (gen fuel comps (.arrOf cnt nm items) r).isSome = true) := by
  induction fuel using Nat.strong_induction_on with
  | _ fuel ih =>
    match fuel with
    | 0 =>
      refine ⟨?_, ?_, ?_, ?_, ?_⟩ <;> intros <;> omega
    | f+1 =>
      have ihV := fun (h : f < f + 1) => (ih f h).1
      have ihO := fun (h : f < f + 1) => (ih f h).2.1
      have ihP := fun (h : f < f + 1) => (ih f h).2.2.1
      have ihP1 := fun (h : f < f + 1) => (ih f h).2.2.2.1
      have ihA := fun (h : f < f + 1) => (ih f h).2.2.2.2
      refine ⟨?_, ?_, ?_, ?_, ?_⟩
      · -- .val
        intro nm s r hrf hb
        rw [gen_val_succ]
        by_cases h1 : nm = "account" ∨ nm = "account-id" ∨ nm = "accountId"
        · rw [if_pos h1]
          rfl
        rw [if_neg h1]
        by_cases h2 : nm = "region"
        · rw [if_pos h2]
          rfl
        rw [if_neg h2]
        by_cases h3 : nm = "id" ∨ strEnds nm "Id" = true
        · rw [if_pos h3]
          rfl
        rw [if_neg h3]
        by_cases h4 : nm = "time" ∨ strEnds nm "Time" = true ∨ strEnds nm "At" = true
        · rw [if_pos h4]
          rfl
        rw [if_neg h4]
        by_cases h5 : strContains (strLower nm) "arn" = true
        · rw [if_pos h5]
          rfl
        rw [if_neg h5]
        by_cases h6 : nm = "source"
        · rw [if_pos h6]
          rfl
        rw [if_neg h6]
        by_cases h7 : jeqStr (jgetD s "type" (.str "string")) "string" = true
        · rw [if_pos h7]
          by_cases h7a : strEnds (strLower nm) "name" = true
          · rw [if_pos h7a]
            rfl
          rw [if_neg h7a]
          by_cases h7b : strContains (strLower nm) "ip" = true
          · rw [if_pos h7b]
            rfl
          rw [if_neg h7b]
          by_cases h7c : strContains (strLower nm) "etag" = true
          · rw [if_pos h7c]
            rfl
          rw [if_neg h7c]
          by_cases h7d : strContains (strLower nm) "key" = true
          · rw [if_pos h7d]
            rfl
          rw [if_neg h7d]
          rfl
        rw [if_neg h7]
        by_cases h8 : jeqStr (jgetD s "type" (.str "string")) "number" = true ∨
            jeqStr (jgetD s "type" (.str "string")) "integer" = true
        · rw [if_pos h8]
          rfl
        rw [if_neg h8]
        by_cases h9 : jeqStr (jgetD s "type" (.str "string")) "boolean" = true
        · rw [if_pos h9]
          rfl
        rw [if_neg h9]
        by_cases h10 : jeqStr (jgetD s "type" (.str "string")) "array" = true
        · rw [if_pos h10]
          have htyeq : jgetD s "type" (.str "string") = .str "array" := jeqStr_eq h10
          have htype : jget s "type" = some (.str "array") := by
            rcases ht : jget s "type" with _ | w
            · rw [show jgetD s "type" (.str "string") = .str "string" from by
                simp [jgetD, ht]] at htyeq
              exact absurd (congrArg asStr htyeq) (by simp [asStr])
            · rw [show jgetD s "type" (.str "string") = w from by
                simp [jgetD, ht]] at htyeq
              rw [htyeq]
          have hsobj : ∃ kvs, s = .obj kvs := by
            match s, htype with
            | .obj kvs, _ => exact ⟨kvs, rfl⟩
          obtain ⟨kvs, rfl⟩ := hsobj
          have hs3 : 3 ≤ jsize (JValue.obj kvs) := by
            have h0 := jsizePairs_of_mem (mem_of_lookup_eq_some
              (show List.lookup "type" kvs = some (.str "array") from htype))
            simp only [jsize] at h0 ⊢
            omega
          simp only [Rng.nextNat]
          rcases hi : jget (JValue.obj kvs) "items" with _ | items0
          · rw [show jgetD (JValue.obj kvs) "items" (.obj []) = .obj [] from by
              simp [jgetD, hi]]
            refine ihA (by omega) _ nm _ _ rfl ?_
            have hm3 : (Rng.nats r r.pos) % 3 < 3 := Nat.mod_lt _ (by norm_num)
            simp only [jsize, jsizePairs]
            omega
          · rw [show jgetD (JValue.obj kvs) "items" (.obj []) = items0 from by
              simp [jgetD, hi]]
            have hrfi : RefFree items0 = true :=
              (RefFree_obj_entry hrf (mem_of_lookup_eq_some
                (show List.lookup "items" kvs = some items0 from hi))).1
            refine ihA (by omega) _ nm _ _ hrfi ?_
            have hm3 : (Rng.nats r r.pos) % 3 < 3 := Nat.mod_lt _ (by norm_num)
            have hib := jsize_items_bound htype hi
            omega
        rw [if_neg h10]
        by_cases h11 : jeqStr (jgetD s "type" (.str "string")) "object" = true
        · rw [if_pos h11]
          by_cases h12 : pyHasKey s "properties" = true
          · rw [if_pos h12]
            exact ihO (by omega) s _ hrf (by omega)
          · rw [if_neg h12]
            rfl
        rw [if_neg h11]
        rfl
      · -- .objOf
        intro s r hrf hb
        simp only [gen]
        split
        · rfl
        · rename_i hnp
          have hkey : pyHasKey s "properties" = true := by
            rcases hk : pyHasKey s "properties"
            · rw [hk] at hnp
              exact absurd rfl hnp
            · rfl
          rcases hp : jget s "properties" with _ | propsObj
          · rw [pyHasKey, hp] at hkey
            exact absurd hkey (by simp)
          · rw [show jgetD s "properties" (.obj []) = propsObj from by simp [jgetD, hp]]
            have hsobj : ∃ kvs, s = .obj kvs := by
              match s, hp with
              | .obj kvs, _ => exact ⟨kvs, rfl⟩
            obtain ⟨kvs, rfl⟩ := hsobj
            have hrfp : RefFree propsObj = true :=
              (RefFree_obj_entry hrf (mem_of_lookup_eq_some
                (show List.lookup "properties" kvs = some propsObj from hp))).1
            have hentries : ∀ p ∈ jEntries propsObj, RefFree p.2 = true := by
              intro p hpmem
              match propsObj, hpmem with
              | .obj l, hpmem => exact (RefFree_obj_entry hrfp hpmem).1
            refine ihP (by omega) _ _ _ hentries ?_
            have h1 := @jsizePairs_entries_bound propsObj
            have h2 := @jsize_props_bound (JValue.obj kvs) propsObj hp
            omega
      · -- .props
        intro l req r hl hb
        match l with
        | [] =>
          simp only [gen]
          rfl
        | (nm, d) :: rest =>
          have hd : RefFree d = true := hl (nm, d) (by simp)
          have hrest : ∀ p ∈ rest, RefFree p.2 = true := fun p hp => hl p (by simp [hp])
          simp only [gen, jsizePairs] at hb ⊢
          split
          · refine ihP1 (by omega) nm d rest req r hd hrest (by omega)
          · simp only [Rng.nextRat]
            split
            · refine ihP1 (by omega) nm d rest req _ hd hrest (by omega)
            · refine ihP (by omega) rest req _ hrest (by omega)
      · -- .prop1
        intro nm d rest req r hd hrest hb
        have hnr := RefFree_no_ref hd
        simp only [gen, hnr, Bool.false_eq_true, if_false]
        have hval := ihV (by omega) nm d r hd (by omega)
        rcases hv : gen f comps (.val nm d) r with _ | ⟨v1, r2⟩
        · rw [hv] at hval
          exact absurd hval (by simp)
        · have hps := ihP (by omega) rest req r2 hrest (by omega)
          rcases hr : gen f comps (.props rest req) r2 with _ | ⟨vr, r3⟩
          · rw [hr] at hps
            exact absurd hps (by simp)
          · obtain ⟨kvs1, rfl⟩ := gen_props_obj f hr
            simp only [hr]
            rfl
      · -- .arrOf
        intro cnt nm items r hrf hb
        match cnt with
        | 0 =>
          simp only [gen]
          rfl
        | c+1 =>
          simp only [gen]
          have hval := ihV (by omega) (nm ++ "_item") items r hrf (by omega)
          rcases hv : gen f comps (.val (nm ++ "_item") items) r with _ | ⟨v1, r2⟩
          · rw [hv] at hval
            exact absurd hval (by simp)
          · have has := ihA (by omega) c nm items r2 hrf (by omega)
            rcases hr : gen f comps (.arrOf c nm items) r2 with _ | ⟨vr, r3⟩
            · rw [hr] at has
              exact absurd has (by simp)
            · obtain ⟨vs, rfl⟩ := gen_arrOf_arr f hr
              simp only [hr]
              rfl

/-- `generate_object_from_schema`: a declared property (in a node with
distinct property names) whose descriptor is a reference resolving in the
component table materializes — when present in the output — to a JSON
object, the empty one when the component declares no `properties`. -/
theorem gen_objOf_refObj :
    ∀ (fuel : Nat) {comps s : JValue} {r : Rng} {kvs : List (String × JValue)} {r' : Rng},
      gen fuel comps (.objOf s) r = some (.obj kvs, r') →
      ((jEntries (jgetD s "properties" (.obj []))).map Prod.fst).Nodup →
      ∀ (nm : String) (d : JValue),
        (nm, d) ∈ jEntries (jgetD s "properties" (.obj [])) →
        pyHasKey d "$ref" = true →
        ∀ comp, jget comps (lastSeg (asStr (jgetD d "$ref" (.str "")))) = some comp →
        ∀ v, List.lookup nm kvs = some v →
          (∃ kvso, v = .obj kvso) ∧ (pyHasKey comp "properties" = false → v = .obj [])
  | 0, _, _, _, _, _, h => absurd h (by simp [gen])
  | fuel+1, comps, s, r, kvs, r', h => by
    intro hnd nm d hmem href comp hcomp v hv
    simp only [gen] at h
    split at h
    · rename_i hnp
      have hnone : jget s "properties" = none := by
        rcases hj : jget s "properties" with _ | w
        · rfl
        · rw [pyHasKey, hj] at hnp
          simp at hnp
      rw [show jgetD s "properties" (.obj []) = .obj [] from by simp [jgetD, hnone]] at hmem
      exact absurd hmem (by simp [jEntries])
    · exact gen_props_refObj fuel h hnd nm d hmem href comp hcomp v hv

/-! ## A cyclic component table defeats the generators

The source has no cycle guard: a component whose required property refers
back to the component itself recurses until the interpreter's entire fuel
is consumed, at every fuel — i.e. the Python call never returns. -/

/-- The reference descriptor `x: #/components/schemas/A`. -/
def cycRef : JValue := .obj [("$ref", .str "#/components/schemas/A")]

/-- The self-referential component `A`. -/
def cycA : JValue :=
  .obj [("properties", .obj [("x", cycRef)]), ("required", .arr [.str "x"])]

/-- A component table containing only the self-referential `A`. -/
def cycComps : JValue := .obj [("A", cycA)]

/-- An object-typed property descriptor whose required property `x` refers
to the cyclic component. -/
def cycSchema : JValue :=
  .obj [("type", .str "object"), ("properties", .obj [("x", cycRef)]),
    ("required", .arr [.str "x"])]

theorem cyc_objOf_none : ∀ (f : Nat) (r : Rng), gen f cycComps (.objOf cycA) r = none := by
  intro f
  induction f using Nat.strong_induction_on with
  | _ f ih =>
    intro r
    match f with
    | 0 => rfl
    | 1 => rfl
    | 2 => rfl
    | f+3 =>
      have hstep : gen (f+3) cycComps (.objOf cycA) r =
          (match gen f cycComps (.objOf cycA) r with
           | none => none
           | some (v, r) =>
             match gen f cycComps (.props [] (.arr [.str "x"])) r with
             | none => none
             | some (.obj kvs, r) => some (.obj (("x", v) :: kvs), r)
             | some _ => none) := rfl
      rw [hstep, ih f (by omega) r]

theorem cyc_val_none (f : Nat) (r : Rng) : gen f cycComps (.val "p" cycSchema) r = none := by
  match f with
  | 0 => rfl
  | 1 => rfl
  | 2 => rfl
  | 3 => rfl
  | f+4 =>
    have hstep : gen (f+4) cycComps (.val "p" cycSchema) r =
        (match gen f cycComps (.objOf cycA) r with
         | none => none
         | some (v, r) =>
           match gen f cycComps (.props [] (.arr [.str "x"])) r with
           | none => none
           | some (.obj kvs, r) => some (.obj (("x", v) :: kvs), r)
           | some _ => none) := rfl
    rw [hstep, cyc_objOf_none f r]

/-! ## Lemmas about the envelope assembler -/

/-- The account-id draws advance only the position: all oracle streams,
in particular the clock stream, are unchanged. -/
theorem accountDigits_times : ∀ (k : Nat) (r : Rng), ((accountDigits k r).2).times = r.times
  | 0, _ => rfl
  | k+1, r => by
    simp only [accountDigits, Rng.nextNat]
    rw [accountDigits_times k]

/-- The eight fixed envelope entries of every assembled event, in insertion
order, as a function of the document, the region argument and the draws. -/
def baseEvent (doc : JValue) (regionArg : Option String) (account : String)
    (eid : Nat) (t : DateTime) (resource : String) : List (String × JValue) :=
  [("version", .str "0"),
   ("id", .str (uuid4String eid)),
   ("detail-type", jgetD (awsNodeOf doc) "x-amazon-events-detail-type" (.str "Unknown Event")),
   ("source", .str (eventSourceOf doc)),
   ("account", .str account),
   ("time", .str (pyReplace (isoformatUTC t) "+00:00" "Z")),
   ("region", .str (if pyFalsyOptStr regionArg then DEFAULT_REGION else regionArg.getD "")),
   ("resources", .arr [.str resource])]

/-- The fallback detail object of source lines 188-191. -/
def fallbackDetail (doc : JValue) (t2 : DateTime) : JValue :=
  .obj [("message", .str ("Test event generated for " ++ eventSourceOf doc)),
        ("timestamp", .str (isoformatUTC t2))]

/-- Structure of every successful assembly: the eight fixed envelope fields
followed by at most one `detail` entry, whose presence and value are
determined by the document's detail reference slot. -/
theorem assemble_ok_decomp {fuel : Nat} {doc : JValue} {regionArg : Option String} {r : Rng}
    {e : List (String × JValue)} {r' : Rng}
    (h : generate_event_from_schema fuel doc regionArg r = .ok e r') :
    ∃ (account resource : String) (eid : Nat) (t : DateTime)
      (tail : List (String × JValue)),
      e = baseEvent doc regionArg account eid t resource ++ tail ∧
      isAccountId account = true ∧
      strStarts resource "arn:aws:" = true ∧
      (r.Valid → t.Valid) ∧
      (match detailRefOf doc with
       | none => ∃ t2, (r.Valid → t2.Valid) ∧ tail = [("detail", fallbackDetail doc t2)]
       | some dr =>
         (jtruthy dr = true →
           (match jget (schemaComponentsOf doc) (lastSeg (asStr dr)) with
            | some comp => ∃ dv r2 r3,
                gen fuel (schemaComponentsOf doc) (.objOf comp) r2 = some (dv, r3) ∧
                tail = [("detail", dv)]
            | none => tail = [])) ∧
         (jtruthy dr = false →
           ∃ t2, (r.Valid → t2.Valid) ∧ tail = [("detail", fallbackDetail doc t2)])) := by
  unfold generate_event_from_schema at h
  by_cases htru : jtruthy (awsNodeOf doc) = true
  case neg =>
    rw [if_pos (by simp [Bool.not_eq_true] at htru ⊢; exact htru)] at h
    cases h
  case pos =>
    rw [if_neg (by simp [htru])] at h
    rcases hacc : generate_aws_account_id r with ⟨account, r1⟩
    rw [hacc] at h
    have haccfmt : isAccountId account = true := by
      have hfmt := generate_aws_account_id_format r
      rw [hacc] at hfmt
      exact hfmt
    have htms : r1.times = r.times := by
      rcases h12 : accountDigits 12 r with ⟨cs, r2⟩
      have hga : generate_aws_account_id r = (String.mk cs, r2) := by
        simp only [generate_aws_account_id, h12]
      rw [hacc] at hga
      injection hga with h1 h2
      rw [h2]
      have h3 := accountDigits_times 12 r
      rw [h12] at h3
      exact h3
    simp only [] at h
    by_cases hs3 : pyReplace (rawSourceOf doc) "aws." "" = "s3"
    · rw [if_pos hs3] at h
      simp only [Rng.nextNat, Rng.nextTime] at h
      have hpre : ∀ x : String,
          strStarts ("arn:aws:s3:::" ++ "example-bucket-" ++ x) "arn:aws:" = true := by
        intro x
        unfold strStarts
        simp only [String.data_append, List.append_assoc]
        exact isPrefixOf_append_of _ (by decide)
      rcases hdr : detailRefOf doc with _ | dr
      · rw [hdr] at h
        simp only [Rng.nextTime] at h
        cases h
        refine ⟨_, _, _, _, _, rfl, haccfmt, hpre _, ?_, _, ?_, rfl⟩
        · intro hv
          rw [htms]
          exact hv _
        · intro hv
          rw [htms]
          exact hv _
      · rw [hdr] at h
        simp only [] at h
        by_cases htr : jtruthy dr = true
        · rw [if_pos htr] at h
          rcases hcm : jget (schemaComponentsOf doc) (lastSeg (asStr dr)) with _ | comp
          · rw [hcm] at h
            cases h
            refine ⟨_, _, _, _, _, rfl, haccfmt, hpre _, ?_, fun _ => by rw [hcm],
              fun hf => absurd htr (by simp [hf])⟩
            intro hv
            rw [htms]
            exact hv _
          · rw [hcm] at h
            simp only [] at h
            rcases hgen : gen fuel (schemaComponentsOf doc)
                (.objOf comp) { r1 with pos := r1.pos + 1 + 1 + 1 } with _ | ⟨dv, r3⟩
            · rw [hgen] at h
              cases h
            · rw [hgen] at h
              cases h
              refine ⟨_, _, _, _, _, rfl, haccfmt, hpre _, ?_,
                fun _ => by rw [hcm]; exact ⟨_, _, _, hgen, rfl⟩,
                fun hf => absurd htr (by simp [hf])⟩
              intro hv
              rw [htms]
              exact hv _
        · rw [if_neg htr] at h
          cases h
          refine ⟨_, _, _, _, _, rfl, haccfmt, hpre _, ?_,
            fun ht => absurd ht htr, fun _ => ⟨_, ?_, rfl⟩⟩
          · intro hv
            rw [htms]
            exact hv _
          · intro hv
            rw [htms]
            exact hv _
    · rw [if_neg hs3] at h
      simp only [Rng.nextNat, Rng.nextTime] at h
      have hpre : ∀ (a b c x : String),
          strStarts ("arn:aws:" ++ a ++ ":" ++ b ++ ":" ++ c ++ ":resource/" ++
            "test-resource-" ++ x) "arn:aws:" = true := by
        intro a b c x
        unfold strStarts
        simp only [String.data_append, List.append_assoc]
        exact isPrefixOf_append_self _ _
      rcases hdr : detailRefOf doc with _ | dr
      · rw [hdr] at h
        simp only [Rng.nextTime] at h
        cases h
        refine ⟨_, _, _, _, _, rfl, haccfmt, hpre _ _ _ _, ?_, _, ?_, rfl⟩
        · intro hv
          rw [htms]
          exact hv _
        · intro hv
          rw [htms]
          exact hv _
      · rw [hdr] at h
        simp only [] at h
        by_cases htr : jtruthy dr = true
        · rw [if_pos htr] at h
          rcases hcm : jget (schemaComponentsOf doc) (lastSeg (asStr dr)) with _ | comp
          · rw [hcm] at h
            cases h
            refine ⟨_, _, _, _, _, rfl, haccfmt, hpre _ _ _ _, ?_, fun _ => by rw [hcm],
              fun hf => absurd htr (by simp [hf])⟩
            intro hv
            rw [htms]
            exact hv _
          · rw [hcm] at h
            simp only [] at h
            rcases hgen : gen fuel (schemaComponentsOf doc)
                (.objOf comp) { r1 with pos := r1.pos + 1 + 1 + 1 } with _ | ⟨dv, r3⟩
            · rw [hgen] at h
              cases h
            · rw [hgen] at h
              cases h
              refine ⟨_, _, _, _, _, rfl, haccfmt, hpre _ _ _ _, ?_,
                fun _ => by rw [hcm]; exact ⟨_, _, _, hgen, rfl⟩,
                fun hf => absurd htr (by simp [hf])⟩
              intro hv
              rw [htms]
              exact hv _
        · rw [if_neg htr] at h
          cases h
          refine ⟨_, _, _, _, _, rfl, haccfmt, hpre _ _ _ _, ?_,
            fun ht => absurd ht htr, fun _ => ⟨_, ?_, rfl⟩⟩
          · intro hv
            rw [htms]
            exact hv _
          · intro hv
            rw [htms]
            exact hv _

/-! ## Concrete inputs for the claim instances

Two fixed oracles: `rng0` answers every rational draw with `1`, so
`random.random() > 0.2` holds and optional properties are kept; `rng1`
answers with `0`, so they are dropped.  Both use the same fixed valid
clock value. -/

/-- A fixed in-range clock value. -/
def dt0 : DateTime := ⟨2024, 1, 2, 3, 4, 5, 0⟩

/-- Oracle whose rational stream is constantly `1` (optionals kept). -/
def rng0 : Rng :=
  ⟨fun _ => 0, fun _ => 1, fun _ => "w", fun _ => "ip", fun _ => "md5",
   fun _ => "fn", fun _ => dt0, 0⟩

/-- Oracle whose rational stream is constantly `0` (optionals dropped). -/
def rng1 : Rng :=
  ⟨fun _ => 1, fun _ => 0, fun _ => "v", fun _ => "ip", fun _ => "md5",
   fun _ => "fn", fun _ => dt0, 0⟩

/-- A document whose root descriptor's `detail` reference names the absent
component `Nope`. -/
def docDangling : JValue := .obj [("components", .obj [("schemas", .obj [
  ("AWSEvent", .obj [
    ("properties", .obj [("detail", .obj [("$ref", .str "#/components/schemas/Nope")])])])])])]

/-- A document that has a components table and an `AWSEvent` entry, but the
entry is the empty (hence falsy) mapping. -/
def docEmptyRoot : JValue :=
  .obj [("components", .obj [("schemas", .obj [("AWSEvent", .obj [])])])]

/-- A document whose raw source label `aws.aws.foo` repeats the `aws.`
fragment. -/
def docAwsAws : JValue := .obj [("components", .obj [("schemas", .obj [
  ("AWSEvent", .obj [("x-amazon-events-source", .str "aws.aws.foo")])])])]

/-- A document whose root descriptor declares an empty detail-type string. -/
def docEmptyDT : JValue := .obj [("components", .obj [("schemas", .obj [
  ("AWSEvent", .obj [("x-amazon-events-detail-type", .str "")])])])]

/-- A document whose detail component `D` has one optional property. -/
def docOpt : JValue := .obj [("components", .obj [("schemas", .obj [
  ("AWSEvent", .obj [("properties", .obj [("detail", .obj [("$ref", .str "#/components/schemas/D")])])]),
  ("D", .obj [("properties", .obj [("opt", .obj [("type", .str "string")])])])])])]

/-- The `S3Detail`-shaped node of the spec's concrete scenario: three
declared properties of which only `bucketName` is required. -/
def s3detailNode : JValue := .obj [
  ("properties", .obj [("bucketName", .obj [("type", .str "string")]),
    ("eTag", .obj [("type", .str "string")]),
    ("size", .obj [("type", .str "integer")])]),
  ("required", .arr [.str "bucketName"])]

/-- A component table whose only component declares a scalar `type` and no
`properties`. -/
def c10comps : JValue := .obj [("C", .obj [("type", .str "integer")])]

/-- A node whose required property `x` references that scalar component. -/
def c10schema : JValue := .obj [
  ("properties", .obj [("x", .obj [("$ref", .str "#/components/schemas/C")])]),
  ("required", .arr [.str "x"])]

/-- The event of the dangling-reference run. -/
def c1event : List (String × JValue) :=
  (generate_event_from_schema 10 docDangling none rng0).event.getD []

/-- The final oracle state of the dangling-reference run. -/
def c1rng : Rng :=
  match generate_event_from_schema 10 docDangling none rng0 with
  | .ok _ r => r
  | _ => rng0

/-- The event of the repeated-`aws.` run. -/
def c3event : List (String × JValue) :=
  (generate_event_from_schema 10 docAwsAws none rng0).event.getD []

/-- The final oracle state of the repeated-`aws.` run. -/
def c3rng : Rng :=
  match generate_event_from_schema 10 docAwsAws none rng0 with
  | .ok _ r => r
  | _ => rng0

/-- The event of the empty-detail-type run. -/
def c5event : List (String × JValue) :=
  (generate_event_from_schema 10 docEmptyDT none rng0).event.getD []

/-- The final oracle state of the empty-detail-type run. -/
def c5rng : Rng :=
  match generate_event_from_schema 10 docEmptyDT none rng0 with
  | .ok _ r => r
  | _ => rng0

/-- The mapping materialized from `s3detailNode` under `rng1`. -/
def c6kvs : List (String × JValue) :=
  match generate_object_from_schema 10 (.obj []) s3detailNode rng1 with
  | some (.obj kvs, _) => kvs
  | _ => []

/-- The final oracle state of that materialization. -/
def c6rng : Rng :=
  match generate_object_from_schema 10 (.obj []) s3detailNode rng1 with
  | some (_, r) => r
  | none => rng1

/-- The event of the first optional-property run. -/
def c9e1 : List (String × JValue) :=
  (generate_event_from_schema 10 docOpt none rng0).event.getD []

/-- The final oracle state of the first optional-property run. -/
def c9r1 : Rng :=
  match generate_event_from_schema 10 docOpt none rng0 with
  | .ok _ r => r
  | _ => rng0

/-- The event of the second optional-property run. -/
def c9e2 : List (String × JValue) :=
  (generate_event_from_schema 10 docOpt none rng1).event.getD []

/-- The final oracle state of the second optional-property run. -/
def c9r2 : Rng :=
  match generate_event_from_schema 10 docOpt none rng1 with
  | .ok _ r => r
  | _ => rng1

/-- The mapping materialized from `c10schema` against `c10comps`. -/
def c10kvs : List (String × JValue) :=
  match generate_object_from_schema 10 c10comps c10schema rng0 with
  | some (.obj kvs, _) => kvs
  | _ => []

/-- The final oracle state of that materialization. -/
def c10rng : Rng :=
  match generate_object_from_schema 10 c10comps c10schema rng0 with
  | some (_, r) => r
  | none => rng0

/-- The spec's reading of the source rewrite: strip one leading `aws.`
prefix, leaving all other occurrences in place. -/
def stripLeadingAws (s : String) : String :=
  if strStarts s "aws." then String.mk (s.data.drop 4) else s

/-- Appending on the right preserves the prefix. -/
theorem strStarts_append (s t : String) : strStarts (s ++ t) s = true := by
  unfold strStarts
  rw [String.data_append]
  exact isPrefixOf_append_self _ _

/-- A string in canonical UUID form is non-empty. -/
theorem isUuidFormat_ne_empty {s : String} (h : isUuidFormat s = true) : s ≠ "" := by
  intro he
  subst he
  exact absurd h (by decide)

/-- A 12-digit account-id string is non-empty. -/
theorem isAccountId_ne_empty {s : String} (h : isAccountId s = true) : s ≠ "" := by
  intro he
  subst he
  exact absurd h (by decide)

/-- A string starting with `demo.aws.` is non-empty. -/
theorem starts_demo_ne_empty {s : String} (h : strStarts s "demo.aws." = true) : s ≠ "" := by
  intro he
  subst he
  exact absurd h (by decide)

/-- The rendered timestamp string is non-empty for every clock value. -/
theorem time_str_ne_empty (t : DateTime) : pyReplace (isoformatUTC t) "+00:00" "Z" ≠ "" := by
  rw [pyReplace_isoformat]
  intro he
  have hd : isoBase t ++ ['Z'] = ([] : List Char) := congrArg String.data he
  simp at hd

/-- The region field is never the empty string: a falsy argument is replaced
by the default region, and a non-falsy one is a non-empty string. -/
theorem region_ne_empty (regionArg : Option String) :
    (if pyFalsyOptStr regionArg = true then DEFAULT_REGION else regionArg.getD "") ≠ "" := by
  by_cases hf : pyFalsyOptStr regionArg = true
  · rw [if_pos hf]
    decide
  · rw [if_neg hf]
    match regionArg, hf with
    | none, hf => exact absurd rfl hf
    | some s, hf =>
      intro he
      have hs : s = "" := he
      exact hf (by simp [pyFalsyOptStr, hs])

/-! ## The claims -/

/-- Claim C1, counterexample: in `docDangling` the root descriptor's
`detail` property is a truthy reference to the absent component `Nope`,
yet the assembled event has no `detail` key at all — the fallback detail
is not substituted for a dangling reference, the field is omitted. -/
theorem C1_counterexample :
    detailRefOf docDangling = some (.str "#/components/schemas/Nope") ∧
    jtruthy (.str "#/components/schemas/Nope") = true ∧
    jget (schemaComponentsOf docDangling) (lastSeg "#/components/schemas/Nope") = none ∧
    (generate_event_from_schema 10 docDangling none rng0).event.map
      (fun e => List.lookup "detail" e) = some none :=
  ⟨rfl, rfl, rfl, rfl⟩

/-- Claim C1, amended: when the detail reference is truthy but dangling
(the referenced name is absent from the component table), the assembled
event omits the `detail` field entirely; the two-field fallback is used
only when the `detail` property carries no truthy reference. -/
theorem C1_amended {fuel : Nat} {doc : JValue} {regionArg : Option String} {r : Rng}
    {e : List (String × JValue)} {r2 : Rng}
    (h : generate_event_from_schema fuel doc regionArg r = .ok e r2)
    {dr : JValue} (hdr : detailRefOf doc = some dr) (htr : jtruthy dr = true)
    (hmiss : jget (schemaComponentsOf doc) (lastSeg (asStr dr)) = none) :
    List.lookup "detail" e = none := by
  obtain ⟨account, resource, eid, t, tail, he, -, -, -, hm⟩ := assemble_ok_decomp h
  simp only [hdr] at hm
  have h1 := hm.1 htr
  simp only [hmiss] at h1
  subst h1
  simp only [he]
  rfl

/-- Claim C1, amended, witness: the dangling-reference run instantiated. -/
theorem C1_amended_witness : List.lookup "detail" c1event = none :=
  @C1_amended 10 docDangling none rng0 c1event c1rng rfl
    (.str "#/components/schemas/Nope") rfl rfl rfl

/-- Claim C2, counterexample: `docEmptyRoot` has a components table and an
entry named `AWSEvent`, yet assembly fails with the structure error,
because the root descriptor is the empty mapping, which is falsy. -/
theorem C2_counterexample :
    pyHasKey (jgetD docEmptyRoot "components" (.obj [])) "schemas" = true ∧
    pyHasKey (schemaComponentsOf docEmptyRoot) "AWSEvent" = true ∧
    generate_event_from_schema 10 docEmptyRoot none rng0 = .structureError :=
  ⟨rfl, rfl, rfl⟩

/-- Claim C2, amended: assembly fails with the structure error exactly when
the root descriptor slot is falsy — absent, or present but empty; the
failure value carries no event. -/
theorem C2_amended (fuel : Nat) (doc : JValue) (regionArg : Option String) (r : Rng) :
    (generate_event_from_schema fuel doc regionArg r = .structureError ↔
      jtruthy (awsNodeOf doc) = false) ∧
    AssembleResult.event .structureError = none := by
  refine ⟨?_, rfl⟩
  constructor
  · intro h
    cases hjt : jtruthy (awsNodeOf doc)
    · rfl
    · exfalso
      unfold generate_event_from_schema at h
      rw [if_neg (by simp [hjt])] at h
      rcases hacc : generate_aws_account_id r with ⟨account, r1⟩
      rw [hacc] at h
      simp only [] at h
      by_cases hs3 : pyReplace (rawSourceOf doc) "aws." "" = "s3"
      · rw [if_pos hs3] at h
        simp only [Rng.nextNat, Rng.nextTime] at h
        rcases hdr : detailRefOf doc with _ | dr
        · rw [hdr] at h
          exact AssembleResult.noConfusion h
        · rw [hdr] at h
          simp only [] at h
          by_cases htr : jtruthy dr = true
          · rw [if_pos htr] at h
            rcases hcm : jget (schemaComponentsOf doc) (lastSeg (asStr dr)) with _ | comp
            · rw [hcm] at h
              exact AssembleResult.noConfusion h
            · rw [hcm] at h
              simp only [] at h
              rcases hgen : gen fuel (schemaComponentsOf doc) (.objOf comp)
                  { r1 with pos := r1.pos + 1 + 1 + 1 } with _ | ⟨dv, r3⟩
              · rw [hgen] at h
                exact AssembleResult.noConfusion h
              · rw [hgen] at h
                exact AssembleResult.noConfusion h
          · rw [if_neg htr] at h
            exact AssembleResult.noConfusion h
      · rw [if_neg hs3] at h
        simp only [Rng.nextNat, Rng.nextTime] at h
        rcases hdr : detailRefOf doc with _ | dr
        · rw [hdr] at h
          exact AssembleResult.noConfusion h
        · rw [hdr] at h
          simp only [] at h
          by_cases htr : jtruthy dr = true
          · rw [if_pos htr] at h
            rcases hcm : jget (schemaComponentsOf doc) (lastSeg (asStr dr)) with _ | comp
            · rw [hcm] at h
              exact AssembleResult.noConfusion h
            · rw [hcm] at h
              simp only [] at h
              rcases hgen : gen fuel (schemaComponentsOf doc) (.objOf comp)
                  { r1 with pos := r1.pos + 1 + 1 + 1 } with _ | ⟨dv, r3⟩
              · rw [hgen] at h
                exact AssembleResult.noConfusion h
              · rw [hgen] at h
                exact AssembleResult.noConfusion h
          · rw [if_neg htr] at h
            exact AssembleResult.noConfusion h
  · intro h
    unfold generate_event_from_schema
    rw [if_pos (by simp [h])]

/-- Claim C3, counterexample: for the raw source label `aws.aws.foo` the
code removes every occurrence of `aws.` (Python `str.replace` is global),
yielding source `demo.aws.foo`; stripping only a leading `aws.` prefix, as
the claim reads, would yield `demo.aws.aws.foo`. -/
theorem C3_counterexample :
    rawSourceOf docAwsAws = "aws.aws.foo" ∧
    "demo.aws." ++ stripLeadingAws (rawSourceOf docAwsAws) = "demo.aws.aws.foo" ∧
    eventSourceOf docAwsAws = "demo.aws.foo" ∧
    List.lookup "source" ((generate_event_from_schema 10 docAwsAws none rng0).event.getD [])
      = some (.str "demo.aws.foo") :=
  ⟨rfl, rfl, rfl, rfl⟩

/-- Claim C3, amended: the `source` field of every assembled event is
`demo.aws.` followed by the raw label with every occurrence of `aws.`
removed, not only a leading one. -/
theorem C3_amended {fuel : Nat} {doc : JValue} {regionArg : Option String} {r : Rng}
    {e : List (String × JValue)} {r2 : Rng}
    (h : generate_event_from_schema fuel doc regionArg r = .ok e r2) :
    List.lookup "source" e =
      some (.str ("demo.aws." ++ pyReplace (rawSourceOf doc) "aws." "")) := by
  obtain ⟨account, resource, eid, t, tail, he, -, -, -, -⟩ := assemble_ok_decomp h
  simp only [he]
  rfl

/-- Claim C3, amended, witness: the repeated-`aws.` run instantiated. -/
theorem C3_amended_witness :
    List.lookup "source" c3event =
      some (.str ("demo.aws." ++ pyReplace (rawSourceOf docAwsAws) "aws." "")) :=
  @C3_amended 10 docAwsAws none rng0 c3event c3rng rfl

/-- Claim C4, counterexample: the name `accountArn` does not match the
account-identifier rule, which requires one of the exact names `account`,
`account-id`, `accountId`; the ARN rule fires instead, and the value is an
ARN-shaped string, not a 12-digit string. -/
theorem C4_counterexample :
    (generate_value_for_property 3 (.obj []) "accountArn" (.obj []) rng0).map Prod.fst =
      some (.str "arn:aws:account:eu-west-2:000000000000:resource/w-00000000") ∧
    strStarts "arn:aws:account:eu-west-2:000000000000:resource/w-00000000" "arn:aws:" = true ∧
    isAccountId "arn:aws:account:eu-west-2:000000000000:resource/w-00000000" = false :=
  ⟨rfl, by decide, by decide⟩

/-- Claim C4, amended: for every descriptor, call budget and randomness,
synthesizing a value for the name `accountArn` yields a string starting
with `arn:aws:` — the account-identifier rule requires an exact name match
and does not fire on it, while the ARN substring rule does. -/
theorem C4_amended (fuel : Nat) (comps s : JValue) (r : Rng) :
    ∃ out r2, gen (fuel+1) comps (.val "accountArn" s) r = some (.str out, r2) ∧
      strStarts out "arn:aws:" = true := by
  rcases harn : generate_arn "account" "resource" none none none r with ⟨out, r2⟩
  refine ⟨out, r2, ?_, ?_⟩
  · show (match generate_arn "account" "resource" none none none r with
      | (s0, r0) => some (JValue.str s0, r0)) = some (.str out, r2)
    rw [harn]
  · have hx := generate_arn_starts "account" "resource" none none none r
    rw [harn] at hx
    exact hx

/-- Claim C5, counterexample: a root descriptor carrying an empty
`x-amazon-events-detail-type` string yields an event whose `detail-type`
field is present but empty — the `.get` default applies only when the key
is absent, so the non-emptiness portion of the claim fails. -/
theorem C5_counterexample :
    List.lookup "detail-type"
      ((generate_event_from_schema 10 docEmptyDT none rng0).event.getD [])
      = some (.str "") ∧
    jtruthy (.str "") = false :=
  ⟨rfl, rfl⟩

/-- Claim C5, amended: every successfully assembled event carries the seven
envelope fields; six of them are non-empty with their documented shapes
(`version` is `0`, `id` is a canonical UUID string, `source` starts with
`demo.aws.`, `account` is a 12-digit string, `time` is non-empty and is an
ISO-8601 `Z` string under a valid clock oracle, `region` is non-empty),
and the `resources` field holds exactly one entry, a string starting with
`arn:aws:`; the `detail-type` value is present but is whatever string the
descriptor declares, so it may be empty. -/
theorem C5_amended {fuel : Nat} {doc : JValue} {regionArg : Option String} {r : Rng}
    {e : List (String × JValue)} {r2 : Rng}
    (h : generate_event_from_schema fuel doc regionArg r = .ok e r2) :
    List.lookup "version" e = some (.str "0") ∧
    (∃ s, List.lookup "id" e = some (.str s) ∧ isUuidFormat s = true ∧ s ≠ "") ∧
    (List.lookup "detail-type" e).isSome = true ∧
    (∃ s, List.lookup "source" e = some (.str s) ∧ strStarts s "demo.aws." = true ∧
      s ≠ "") ∧
    (∃ s, List.lookup "account" e = some (.str s) ∧ isAccountId s = true ∧ s ≠ "") ∧
    (∃ s, List.lookup "time" e = some (.str s) ∧ s ≠ "" ∧
      (r.Valid → isIsoZ s = true)) ∧
    (∃ s, List.lookup "region" e = some (.str s) ∧ s ≠ "") ∧
    ∃ res, List.lookup "resources" e = some (.arr [.str res]) ∧
      strStarts res "arn:aws:" = true := by
  obtain ⟨account, resource, eid, t, tail, he, hacc, hres, hval, -⟩ := assemble_ok_decomp h
  subst he
  have hsrc : strStarts (eventSourceOf doc) "demo.aws." = true :=
    strStarts_append "demo.aws." (pyReplace (rawSourceOf doc) "aws." "")
  refine ⟨rfl,
    ⟨uuid4String eid, rfl, isUuidFormat_uuid4 eid,
      isUuidFormat_ne_empty (isUuidFormat_uuid4 eid)⟩,
    rfl,
    ⟨eventSourceOf doc, rfl, hsrc, starts_demo_ne_empty hsrc⟩,
    ⟨account, rfl, hacc, isAccountId_ne_empty hacc⟩,
    ⟨pyReplace (isoformatUTC t) "+00:00" "Z", rfl, time_str_ne_empty t,
      fun hv => isIsoZ_time t (hval hv)⟩,
    ⟨(if pyFalsyOptStr regionArg = true then DEFAULT_REGION else regionArg.getD ""),
      rfl, region_ne_empty regionArg⟩,
    ⟨resource, rfl, hres⟩⟩

/-- Claim C5, amended, witness: the empty-detail-type run instantiated. -/
theorem C5_amended_witness :
    List.lookup "version" c5event = some (.str "0") ∧
    (∃ s, List.lookup "id" c5event = some (.str s) ∧ isUuidFormat s = true ∧ s ≠ "") ∧
    (List.lookup "detail-type" c5event).isSome = true ∧
    (∃ s, List.lookup "source" c5event = some (.str s) ∧ strStarts s "demo.aws." = true ∧
      s ≠ "") ∧
    (∃ s, List.lookup "account" c5event = some (.str s) ∧ isAccountId s = true ∧ s ≠ "") ∧
    (∃ s, List.lookup "time" c5event = some (.str s) ∧ s ≠ "" ∧
      (rng0.Valid → isIsoZ s = true)) ∧
    (∃ s, List.lookup "region" c5event = some (.str s) ∧ s ≠ "") ∧
    ∃ res, List.lookup "resources" c5event = some (.arr [.str res]) ∧
      strStarts res "arn:aws:" = true :=
  @C5_amended 10 docEmptyDT none rng0 c5event c5rng rfl

/-- Claim C6: every property name both declared in the node's `properties`
mapping and listed in its `required` list appears as a key of any mapping
the materializer returns, for every randomness outcome and call budget. -/
theorem C6_required_present {fuel : Nat} {comps s : JValue} {r : Rng}
    {kvs : List (String × JValue)} {r2 : Rng}
    (h : generate_object_from_schema fuel comps s r = some (.obj kvs, r2))
    {nm : String} {d : JValue}
    (hmem : (nm, d) ∈ jEntries (jgetD s "properties" (.obj [])))
    (hreq : pyIn nm (jgetD s "required" (.arr [])) = true) :
    (List.lookup nm kvs).isSome = true :=
  gen_objOf_required fuel h nm d hmem hreq

/-- Claim C6, witness: the required `bucketName` of `s3detailNode` is
present even under the optional-dropping oracle `rng1`. -/
theorem C6_required_present_witness :
    (List.lookup "bucketName" c6kvs).isSome = true :=
  @C6_required_present 10 (.obj []) s3detailNode rng1 c6kvs c6rng rfl
    "bucketName" (.obj [("type", .str "string")]) (List.mem_cons_self _ _) rfl

/-- Claim C7: names matching the documented heuristics synthesize values of
the documented literal shapes, in the documented resolution order: the
exact account names give 12-digit strings, `region` gives the default
region, id-convention names give canonical UUID strings, time-convention
names give strings matching `YYYY-MM-DDTHH:MM:SS(.ffffff)?Z` for a valid
clock oracle, arn-containing names give strings starting `arn:aws:`, and
`source` gives a string starting `demo.aws.`. -/
theorem C7_heuristic_formats (fuel : Nat) (comps schema : JValue) (name : String)
    (r : Rng) (hv : r.Valid) :
    (name = "account" ∨ name = "account-id" ∨ name = "accountId" →
      ∃ s r2, gen (fuel+1) comps (.val name schema) r = some (.str s, r2) ∧
        isAccountId s = true) ∧
    (name = "region" →
      gen (fuel+1) comps (.val name schema) r = some (.str DEFAULT_REGION, r)) ∧
    (¬(name = "account" ∨ name = "account-id" ∨ name = "accountId") →
      name = "id" ∨ strEnds name "Id" = true →
      ∃ s r2, gen (fuel+1) comps (.val name schema) r = some (.str s, r2) ∧
        isUuidFormat s = true) ∧
    (¬(name = "account" ∨ name = "account-id" ∨ name = "accountId") →
      ¬(name = "id" ∨ strEnds name "Id" = true) →
      name = "time" ∨ strEnds name "Time" = true ∨ strEnds name "At" = true →
      ∃ s r2, gen (fuel+1) comps (.val name schema) r = some (.str s, r2) ∧
        isIsoZ s = true) ∧
    (¬(name = "account" ∨ name = "account-id" ∨ name = "accountId") →
      ¬(name = "id" ∨ strEnds name "Id" = true) →
      ¬(name = "time" ∨ strEnds name "Time" = true ∨ strEnds name "At" = true) →
      strContains (strLower name) "arn" = true →
      ∃ s r2, gen (fuel+1) comps (.val name schema) r = some (.str s, r2) ∧
        strStarts s "arn:aws:" = true) ∧
    (name = "source" →
      ∃ s r2, gen (fuel+1) comps (.val name schema) r = some (.str s, r2) ∧
        strStarts s "demo.aws." = true) := by
  refine ⟨?_, ?_, ?_, ?_, ?_, ?_⟩
  · intro hacc
    rw [gen_val_succ, if_pos hacc]
    rcases hga : generate_aws_account_id r with ⟨s0, r2⟩
    simp only [hga]
    refine ⟨s0, r2, rfl, ?_⟩
    have hx := generate_aws_account_id_format r
    rw [hga] at hx
    exact hx
  · intro hreg
    subst hreg
    rw [gen_val_succ, if_neg (by decide), if_pos rfl]
  · intro hnacc hid
    have hnr : ¬name = "region" := by
      rintro rfl
      exact absurd hid (by decide)
    rw [gen_val_succ, if_neg hnacc, if_neg hnr, if_pos hid]
    simp only [Rng.nextNat]
    exact ⟨_, _, rfl, isUuidFormat_uuid4 _⟩
  · intro hnacc hnid htime
    have hnr : ¬name = "region" := by
      rintro rfl
      exact absurd htime (by decide)
    rw [gen_val_succ, if_neg hnacc, if_neg hnr, if_neg hnid, if_pos htime]
    simp only [Rng.nextTime]
    exact ⟨_, _, rfl, isIsoZ_time _ (hv _)⟩
  · intro hnacc hnid hnt harn
    have hnr : ¬name = "region" := by
      rintro rfl
      exact absurd harn (by decide)
    rw [gen_val_succ, if_neg hnacc, if_neg hnr, if_neg hnid, if_neg hnt, if_pos harn]
    simp only []
    rcases harn2 : generate_arn
        (if strContains name "Arn" = true then strLower (headBeforeArn name) else "service")
        "resource" none none none r with ⟨s0, r2⟩
    simp only [harn2]
    refine ⟨s0, r2, rfl, ?_⟩
    have hx := generate_arn_starts
      (if strContains name "Arn" = true then strLower (headBeforeArn name) else "service")
      "resource" none none none r
    rw [harn2] at hx
    exact hx
  · intro hsrc
    subst hsrc
    rw [gen_val_succ, if_neg (by decide), if_neg (by decide), if_neg (by decide),
      if_neg (by decide), if_neg (by decide), if_pos rfl]
    simp only [Rng.nextWord]
    exact ⟨_, _, rfl, strStarts_append "demo.aws." _⟩

/-- Claim C7, witness: the account conjunct at the name `account` under the
concrete oracle `rng0`. -/
theorem C7_heuristic_formats_witness :
    ∃ s r2, gen 1 (.obj []) (.val "account" (.obj [])) rng0 = some (.str s, r2) ∧
      isAccountId s = true :=
  (C7_heuristic_formats 0 (.obj []) (.obj []) "account" rng0
    (fun _ => (by decide : dt0.Valid))).1
    (Or.inl rfl)

/-- Claim C8, counterexample: the synthesizer is not total: on the cyclic
component table `cycComps`, synthesizing the object-typed descriptor
`cycSchema`, whose required property refers back to component `A`, returns
no value at any call-stack budget — the Python original recurses without
bound. -/
theorem C8_counterexample :
    generate_value_for_property 1000 cycComps "p" cycSchema rng0 = none ∧
    ∀ (fuel : Nat), generate_value_for_property fuel cycComps "p" cycSchema rng0 = none :=
  ⟨cyc_val_none 1000 rng0, fun fuel => cyc_val_none fuel rng0⟩

/-- Claim C8, amended: the synthesizer is total on reference-free
descriptors: any descriptor free of `$ref` — in particular malformed ones
and ones with unrecognized or absent `type`, which fall to the generic
word fallback — yields a value once the call budget covers the descriptor
size. -/
theorem C8_amended (comps : JValue) (nm : String) (s : JValue) (r : Rng)
    (hrf : RefFree s = true) :
    (generate_value_for_property (10 * jsize s + 30) comps nm s r).isSome = true :=
  (gen_total (10 * jsize s + 30) comps).1 nm s r hrf (le_refl _)

/-- Claim C8, amended, witness: a descriptor with an unrecognized `type`. -/
theorem C8_amended_witness :
    (generate_value_for_property (10 * jsize (.obj [("type", .str "mystery")]) + 30)
      (.obj []) "payload" (.obj [("type", .str "mystery")]) rng0).isSome = true :=
  C8_amended (.obj []) "payload" (.obj [("type", .str "mystery")]) rng0 (by decide)

/-- Claim C9, counterexample: two runs of the generator on `docOpt` do not
produce identical field sets: under `rng0` the optional property `opt` of
the detail component is included, under `rng1` it is dropped. -/
theorem C9_counterexample :
    (List.lookup "detail"
        ((generate_event_from_schema 10 docOpt none rng0).event.getD [])).map
      (fun v => (jEntries v).map Prod.fst) = some ["opt"] ∧
    (List.lookup "detail"
        ((generate_event_from_schema 10 docOpt none rng1).event.getD [])).map
      (fun v => (jEntries v).map Prod.fst) = some [] :=
  ⟨rfl, rfl⟩

/-- Claim C9, amended: two successful runs on the same document yield
events with identical top-level key lists — the envelope keys and the
presence of `detail` depend only on the document, never on the randomness;
below `detail`, only required properties are guaranteed in both runs. -/
theorem C9_amended {fuel1 fuel2 : Nat} {doc : JValue} {regionArg : Option String}
    {ra rb : Rng} {e1 e2 : List (String × JValue)} {ra2 rb2 : Rng}
    (h1 : generate_event_from_schema fuel1 doc regionArg ra = .ok e1 ra2)
    (h2 : generate_event_from_schema fuel2 doc regionArg rb = .ok e2 rb2) :
    e1.map Prod.fst = e2.map Prod.fst := by
  obtain ⟨a1, res1, i1, t1, tl1, he1, -, -, -, hm1⟩ := assemble_ok_decomp h1
  obtain ⟨a2, res2, i2, t2, tl2, he2, -, -, -, hm2⟩ := assemble_ok_decomp h2
  subst he1
  subst he2
  have htails : tl1.map Prod.fst = tl2.map Prod.fst := by
    rcases hdr : detailRefOf doc with _ | dr
    · simp only [hdr] at hm1 hm2
      obtain ⟨u1, -, hu1⟩ := hm1
      obtain ⟨u2, -, hu2⟩ := hm2
      rw [hu1, hu2]
      rfl
    · simp only [hdr] at hm1 hm2
      by_cases htr : jtruthy dr = true
      · have g1 := hm1.1 htr
        have g2 := hm2.1 htr
        rcases hcm : jget (schemaComponentsOf doc) (lastSeg (asStr dr)) with _ | comp
        · simp only [hcm] at g1 g2
          rw [g1, g2]
        · simp only [hcm] at g1 g2
          obtain ⟨dv1, -, -, -, hdv1⟩ := g1
          obtain ⟨dv2, -, -, -, hdv2⟩ := g2
          rw [hdv1, hdv2]
          rfl
      · have hfr : jtruthy dr = false := by
          cases hjt : jtruthy dr
          · rfl
          · exact absurd hjt htr
        obtain ⟨u1, -, hu1⟩ := hm1.2 hfr
        obtain ⟨u2, -, hu2⟩ := hm2.2 hfr
        rw [hu1, hu2]
        rfl
  rw [List.map_append, List.map_append, htails]
  rfl

/-- Claim C9, amended, witness: the two optional-property runs have the
same top-level key list even though their detail contents differ. -/
theorem C9_amended_witness : c9e1.map Prod.fst = c9e2.map Prod.fst :=
  @C9_amended 10 10 docOpt none rng0 rng1 c9e1 c9e2 c9r1 c9r2 rfl rfl

/-- Claim C10: a property whose descriptor is a resolvable reference always
materializes through the object materializer, so its value is a mapping;
a referenced component with no `properties` entry — for instance one
declaring only a scalar `type` — gives the empty mapping, never a scalar. -/
theorem C10_ref_gives_mapping {fuel : Nat} {comps s : JValue} {r : Rng}
    {kvs : List (String × JValue)} {r2 : Rng}
    (h : generate_object_from_schema fuel comps s r = some (.obj kvs, r2))
    (hnd : ((jEntries (jgetD s "properties" (.obj []))).map Prod.fst).Nodup)
    {nm : String} {d : JValue}
    (hmem : (nm, d) ∈ jEntries (jgetD s "properties" (.obj [])))
    (href : pyHasKey d "$ref" = true)
    {comp : JValue}
    (hcomp : jget comps (lastSeg (asStr (jgetD d "$ref" (.str "")))) = some comp)
    {v : JValue} (hv : List.lookup nm kvs = some v) :
    (∃ kvso, v = .obj kvso) ∧ (pyHasKey comp "properties" = false → v = .obj []) :=
  gen_objOf_refObj fuel h hnd nm d hmem href comp hcomp v hv

/-- Claim C10, witness: the scalar-typed referenced component `C`
materializes property `x` to the empty mapping. -/
theorem C10_ref_gives_mapping_witness :
    (∃ kvso, JValue.obj [] = JValue.obj kvso) ∧
      (pyHasKey (.obj [("type", .str "integer")]) "properties" = false →
        JValue.obj [] = .obj []) :=
  @C10_ref_gives_mapping 10 c10comps c10schema rng0 c10kvs c10rng rfl
    (by decide) "x" (.obj [("$ref", .str "#/components/schemas/C")])
    (List.mem_cons_self _ _) rfl (.obj [("type", .str "integer")]) rfl
    (.obj []) rfl

end AwsGen
